import Mathlib

/-!
Verification of the job-orchestration layer of the TorrentFlow_x365 service
(`src/main.py`).  The Python source is shallowly embedded: the in-memory
registries of the `TorrentManager` class become association lists over job-id
strings, each HTTP handler and manager method becomes a pure state-passing
function, and the external transfer engine (libtorrent) is represented by the
data the manager reads from it (a status snapshot and a file manifest per
handle).  Wall-clock instants (`time.time()`) are passed explicitly as
rational numbers.
-/

/-! ### Association lists

`TorrentManager` keeps `self.torrents`, `self.torrent_metadata`,
`self.completed_torrents` and `self.completed_files` as Python dicts keyed by
the job id.  We model a dict as a `List (String × α)` with the three
operations the source uses: lookup (`d.get(k)` / `k in d`), store
(`d[k] = v`) and delete (`del d[k]` / `d.pop(k, None)`). -/

def alookup {α : Type} (l : List (String × α)) (k : String) : Option α :=
  (l.find? (fun p => p.1 == k)).map Prod.snd

def ainsert {α : Type} (l : List (String × α)) (k : String) (v : α) :
    List (String × α) :=
  (k, v) :: l.filter (fun p => !(p.1 == k))

def aerase {α : Type} (l : List (String × α)) (k : String) :
    List (String × α) :=
  l.filter (fun p => !(p.1 == k))

theorem alookup_nil {α : Type} (k : String) : alookup ([] : List (String × α)) k = none := rfl

theorem find?_filter_of_imp {α : Type} (q r : α → Bool) (l : List α)
    (h : ∀ x, q x = true → r x = true) :
    List.find? q (l.filter r) = List.find? q l := by
  induction l with
  | nil => rfl
  | cons a t ih =>
    by_cases hr : r a = true
    · simp only [List.filter_cons, hr, if_true]
      by_cases hq : q a = true
      · simp [List.find?_cons, hq]
      · simp only [List.find?_cons, Bool.not_eq_true] at *
        simp [hq, ih]
    · have hq : q a = false := by
        cases hqa : q a with
        | false => rfl
        | true => exact absurd (h a hqa) hr
      simp only [List.filter_cons, hr, if_false, List.find?_cons, hq]
      exact ih

theorem alookup_ainsert_self {α : Type} (l : List (String × α)) (k : String) (v : α) :
    alookup (ainsert l k v) k = some v := by
  simp [alookup, ainsert, List.find?_cons]

theorem alookup_ainsert_ne {α : Type} (l : List (String × α)) (k k' : String) (v : α)
    (h : k' ≠ k) :
    alookup (ainsert l k v) k' = alookup l k' := by
  have hk : (k == k') = false := by
    simp only [beq_eq_false_iff_ne, ne_eq]
    exact fun he => h he.symm
  simp only [alookup, ainsert, List.find?_cons, hk]
  rw [find?_filter_of_imp]
  intro x hx
  simp only [beq_iff_eq] at hx
  simp only [hx, Bool.not_eq_true', beq_eq_false_iff_ne, ne_eq]
  exact h

theorem alookup_aerase_self {α : Type} (l : List (String × α)) (k : String) :
    alookup (aerase l k) k = none := by
  simp only [alookup, aerase, Option.map_eq_none']
  rw [List.find?_eq_none]
  intro p hp
  simp only [List.mem_filter, Bool.not_eq_true'] at hp
  simp [hp.2]

theorem alookup_aerase_ne {α : Type} (l : List (String × α)) (k k' : String)
    (h : k' ≠ k) :
    alookup (aerase l k) k' = alookup l k' := by
  simp only [alookup, aerase]
  rw [find?_filter_of_imp]
  intro x hx
  simp only [beq_iff_eq] at hx
  simp only [hx, Bool.not_eq_true', beq_eq_false_iff_ne, ne_eq]
  exact h

theorem alookup_isSome_of_mem {α : Type} (l : List (String × α)) (k : String) (v : α)
    (h : (k, v) ∈ l) : (alookup l k).isSome = true := by
  simp only [alookup, Option.isSome_map']
  rw [List.find?_isSome]
  exact ⟨(k, v), h, by simp⟩

theorem alookup_split {α : Type} (l : List (String × α)) (k : String) (v : α)
    (h : alookup l k = some v) :
    ∃ l₁ l₂, l = l₁ ++ (k, v) :: l₂ ∧ ∀ p ∈ l₁, p.1 ≠ k := by
  induction l with
  | nil => simp [alookup] at h
  | cons a t ih =>
    cases ha : (a.1 == k) with
    | true =>
      simp only [alookup, List.find?_cons, ha, Option.map_some'] at h
      refine ⟨[], t, ?_, by simp⟩
      simp only [beq_iff_eq] at ha
      have : a = (k, v) := by
        cases a
        simp_all
      simp [this]
    | false =>
      have h' : alookup t k = some v := by
        simpa [alookup, List.find?_cons, ha] using h
      obtain ⟨l₁, l₂, hl, hne⟩ := ih h'
      refine ⟨a :: l₁, l₂, by simp [hl], ?_⟩
      intro p hp
      rcases List.mem_cons.mp hp with rfl | hp'
      · intro he
        rw [he] at ha
        simp at ha
      · exact hne p hp'

/-! ### Python string primitives

The source manipulates Python `str` values with `strip`, `lower`,
`startswith`, `split` and membership tests.  These are modelled on the
character sequence (`String.data`) of the Lean string. -/

/-- Python `str.strip()`: drop whitespace from both ends. -/
def pyStrip (s : String) : String :=
  String.mk (((s.data.dropWhile Char.isWhitespace).reverse.dropWhile Char.isWhitespace).reverse)

/-- Python `str.lower()`: character-wise lower-casing. -/
def pyLower (s : String) : String :=
  String.mk (s.data.map Char.toLower)

/-- Python `str.startswith(p)`: the characters of `p` are a prefix of `s`. -/
def pyStartsWith (s p : String) : Bool :=
  p.data.isPrefixOf s.data

/-- The hexadecimal alphabet accepted by the info-hash branch of
`add_from_url` (`'0123456789abcdefABCDEF'`, main.py line 353). -/
def isHexChar (c : Char) : Bool :=
  "0123456789abcdefABCDEF".data.contains c

/-! ### IngestClassifier (`TorrentManager.add_from_url`, main.py 277-385)

`add_from_url` strips the locator and then branches on its shape:
magnet link, http(s) descriptor URL, 40-character hex info hash, or
failure with `ValueError("Invalid input. ...")` (HTTP 400). -/

inductive UrlClass where
  | magnet
  | descriptorUrl
  | infoHash
  | invalid
deriving DecidableEq, Repr

/-- The classification performed by `add_from_url` (main.py 284, 298, 320,
353, 376): Case 1 `url.lower().startswith('magnet:')`; Case 2
`url.lower().startswith(('http://', 'https://'))`; Case 3
`len(url) == 40 and all(c in '0123456789abcdefABCDEF' for c in url)`;
otherwise `ValueError`. -/
def classify_locator (url : String) : UrlClass :=
  let u := pyStrip url
  if pyStartsWith (pyLower u) "magnet:" then .magnet
  else if pyStartsWith (pyLower u) "http://" || pyStartsWith (pyLower u) "https://" then
    .descriptorUrl
  else if u.length == 40 && u.data.all isHexChar then .infoHash
  else .invalid

/-! ### Descriptor-byte validation (`TorrentManager.download_torrent_file`,
main.py 198-275)

After fetching the payload the source checks (main.py 233-246):
* `if not content or len(content) < 20` → "too small" error;
* `if not content.startswith(b'd')` → an inner `try` decodes the first 200
  bytes and raises the distinguishing "Received HTML instead of torrent
  file..." error if the preview looks like markup, **but the inner block is
  wrapped in a bare `except: pass` which catches that very `ValueError`**,
  after which the generic "invalid bencode format" error is raised.
Bytes are modelled as natural numbers below 256. -/

inductive FetchCheck where
  | tooSmall
  | htmlPage
  | invalidBencode
deriving DecidableEq, Repr

/-- `content[:200].decode('utf-8', errors='ignore')` for ASCII payloads:
bytes ≥ 128 are part of (or start) multi-byte sequences and are dropped by
`errors='ignore'` when invalid; ASCII bytes decode to themselves. -/
def ascii_decode_ignore (bytes : List ℕ) : List Char :=
  (bytes.filter (· < 128)).map Char.ofNat

/-- Python `needle in hay` on strings: contiguous-subsequence test. -/
def containsSeq (hay needle : List Char) : Bool :=
  hay.tails.any (fun t => needle.isPrefixOf t)

/-- main.py 241-242: `text_preview = content[:200].decode('utf-8',
errors='ignore')`, then `'html' in text_preview.lower() or '<' in
text_preview`. -/
def preview_looks_like_html (content : List ℕ) : Bool :=
  let text_preview := ascii_decode_ignore (content.take 200)
  containsSeq (text_preview.map Char.toLower) "html".data || text_preview.contains '<'

/-- The body of the inner `try` at main.py 240-243: raise the distinguishing
`htmlPage` error when the preview looks like markup. -/
def html_probe (content : List ℕ) : Except FetchCheck Unit :=
  if preview_looks_like_html content then .error .htmlPage else .ok ()

/-- The bare `except: pass` at main.py 244-245: whatever the probe raised is
discarded. -/
def bare_except_pass (_ : Except FetchCheck Unit) : Unit := ()

/-- Validation of the fetched payload, main.py 233-246.  `b'd'` is byte 100.
Note that after the swallowed probe the generic `invalidBencode` error is
raised unconditionally. -/
def validate_descriptor_bytes (content : List ℕ) : Except FetchCheck (List ℕ) :=
  if content.length < 20 then .error .tooSmall
  else if content.head? ≠ some 100 then
    let _ := bare_except_pass (html_probe content)
    .error .invalidBencode
  else .ok content

/-! ### Classifier lemmas -/

theorem pyStartsWith_head (s p : String) (c : Char) (hc : p.data.head? = some c)
    (h : pyStartsWith s p = true) : s.data.head? = some c := by
  unfold pyStartsWith at h
  rw [List.isPrefixOf_iff_prefix] at h
  obtain ⟨t, ht⟩ := h
  cases hd : p.data with
  | nil => rw [hd] at hc; simp at hc
  | cons a r =>
    rw [hd] at hc ht
    rw [← ht]
    simpa using hc

theorem hex_first_char (c : Char) (hc : isHexChar c = true) :
    Char.toLower c ≠ 'm' ∧ Char.toLower c ≠ 'h' := by
  have hmem : c ∈ "0123456789abcdefABCDEF".data := by
    simpa [isHexChar, List.contains] using hc
  fin_cases hmem <;> exact ⟨by decide, by decide⟩

theorem hex_not_letter_start (u : String) (hx : u.data.all isHexChar = true)
    (p : String) (c : Char) (hc : p.data.head? = some c)
    (hcm : c = 'm' ∨ c = 'h')
    (h : pyStartsWith (pyLower u) p = true) : False := by
  have hh := pyStartsWith_head (pyLower u) p c hc h
  have hdata : (pyLower u).data = u.data.map Char.toLower := rfl
  rw [hdata, List.head?_map] at hh
  cases hu : u.data with
  | nil => rw [hu] at hh; simp at hh
  | cons a r =>
    rw [hu] at hh
    simp only [Option.map_some', Option.some.injEq, List.head?_cons] at hh
    have ha : isHexChar a = true := by
      rw [hu] at hx
      simp only [List.all_cons, Bool.and_eq_true] at hx
      exact hx.1
    rcases hcm with rfl | rfl
    · exact (hex_first_char a ha).1 hh
    · exact (hex_first_char a ha).2 hh

/-- C9: after trimming surrounding whitespace, the locator classification of
`add_from_url` is exhaustive and exclusive: a magnet-scheme string takes the
direct-link path, an http(s) string takes the descriptor-url path, a
40-character hexadecimal string takes the content-hash path, and anything
else is rejected as invalid input. -/
theorem claim9_classifier_exhaustive (s : String) :
    (pyStartsWith (pyLower (pyStrip s)) "magnet:" = true →
      classify_locator s = .magnet) ∧
    ((pyStartsWith (pyLower (pyStrip s)) "http://" = true ∨
      pyStartsWith (pyLower (pyStrip s)) "https://" = true) →
      classify_locator s = .descriptorUrl) ∧
    (((pyStrip s).length == 40 && (pyStrip s).data.all isHexChar) = true →
      classify_locator s = .infoHash) ∧
    ((pyStartsWith (pyLower (pyStrip s)) "magnet:" = false ∧
      pyStartsWith (pyLower (pyStrip s)) "http://" = false ∧
      pyStartsWith (pyLower (pyStrip s)) "https://" = false ∧
      ((pyStrip s).length == 40 && (pyStrip s).data.all isHexChar) = false) →
      classify_locator s = .invalid) := by
  refine ⟨?_, ?_, ?_, ?_⟩
  · intro h
    simp [classify_locator, h]
  · intro h
    have hm : pyStartsWith (pyLower (pyStrip s)) "magnet:" = false := by
      cases hmg : pyStartsWith (pyLower (pyStrip s)) "magnet:" with
      | false => rfl
      | true =>
        exfalso
        have h1 := pyStartsWith_head _ "magnet:" 'm' (by decide) hmg
        rcases h with h2 | h2
        · have h3 := pyStartsWith_head _ "http://" 'h' (by decide) h2
          rw [h1] at h3
          simp at h3
        · have h3 := pyStartsWith_head _ "https://" 'h' (by decide) h2
          rw [h1] at h3
          simp at h3
    rcases h with h2 | h2 <;> simp [classify_locator, hm, h2]
  · intro h
    have hx : (pyStrip s).data.all isHexChar = true := by
      simp only [Bool.and_eq_true] at h
      exact h.2
    have hm : pyStartsWith (pyLower (pyStrip s)) "magnet:" = false := by
      cases hmg : pyStartsWith (pyLower (pyStrip s)) "magnet:" with
      | false => rfl
      | true =>
        exact absurd (hex_not_letter_start _ hx "magnet:" 'm' (by decide) (Or.inl rfl) hmg)
          not_false
    have hh1 : pyStartsWith (pyLower (pyStrip s)) "http://" = false := by
      cases hmg : pyStartsWith (pyLower (pyStrip s)) "http://" with
      | false => rfl
      | true =>
        exact absurd (hex_not_letter_start _ hx "http://" 'h' (by decide) (Or.inr rfl) hmg)
          not_false
    have hh2 : pyStartsWith (pyLower (pyStrip s)) "https://" = false := by
      cases hmg : pyStartsWith (pyLower (pyStrip s)) "https://" with
      | false => rfl
      | true =>
        exact absurd (hex_not_letter_start _ hx "https://" 'h' (by decide) (Or.inr rfl) hmg)
          not_false
    simp [classify_locator, hm, hh1, hh2, h]
  · intro ⟨h1, h2, h3, h4⟩
    simp [classify_locator, h1, h2, h3, h4]

/-- Witness for C9 at four concrete locators, one per class. -/
theorem claim9_classifier_exhaustive_witness :
    classify_locator " magnet:?xt=urn:btih:0123abcd " = .magnet ∧
    classify_locator "HTTP://tracker.example/a.torrent" = .descriptorUrl ∧
    classify_locator "aaaaaaaaaaaaaaaaaaaaaaaaaaaaaaaaaaaaaaaa" = .infoHash ∧
    classify_locator "not-a-locator" = .invalid :=
  ⟨(claim9_classifier_exhaustive _).1 (by decide),
   (claim9_classifier_exhaustive _).2.1 (Or.inl (by decide)),
   (claim9_classifier_exhaustive _).2.2.1 (by decide),
   (claim9_classifier_exhaustive _).2.2.2 (by decide)⟩

/-- A payload that is an HTML page rather than a bencoded descriptor. -/
def htmlBytes : List ℕ :=
  "<html><head><title>Access denied</title></head></html>".data.map Char.toNat

/-- C7 (code bug): the payload below does not begin with the bencode
dictionary marker `b'd'` and its preview plainly looks like markup, yet
`download_torrent_file` reports the generic invalid-bencode error: the
distinguishing "Received HTML instead of torrent file" `ValueError` raised
inside the inner `try` at main.py 240-243 is swallowed by the bare
`except: pass` at main.py 244-245, so no input ever produces the
distinguishing error. -/
theorem claim7_html_error_swallowed :
    preview_looks_like_html htmlBytes = true ∧
    20 ≤ htmlBytes.length ∧
    htmlBytes.head? ≠ some 100 ∧
    validate_descriptor_bytes htmlBytes = .error .invalidBencode ∧
    ∀ content, validate_descriptor_bytes content ≠ .error .htmlPage := by
  refine ⟨by decide, by decide, by decide, by rfl, ?_⟩
  intro content
  unfold validate_descriptor_bytes
  split
  · simp
  · split <;> simp

/-! ### Data model (main.py 60-104)

`TorrentInfo` is the pydantic response model (main.py 72-87).  A `Handle`
bundles what the manager reads from a live `lt.torrent_handle`: the current
`status()` snapshot, the file manifest of `get_torrent_info().files()`
(relative path and size per file), and the flags the manager itself toggles.
`Metadata` models the `torrent_metadata[tid]` dict with the keys the
orchestration layer reads.  Time values (`time.time()`) are rationals. -/

structure TorrentInfo where
  id : String
  name : String
  state : String
  progress : ℚ
  download_rate : ℚ
  upload_rate : ℚ
  num_peers : ℕ
  num_seeds : ℕ
  total_size : ℕ
  downloaded : ℕ
  uploaded : ℕ
  ratio : ℚ
  eta : ℤ
  save_path : String
  added_time : ℚ
deriving DecidableEq, Repr

structure TorrentStatus where
  name : String
  progress : ℚ
  download_rate : ℚ
  upload_rate : ℚ
  num_peers : ℕ
  num_seeds : ℕ
  total_wanted : ℕ
  total_wanted_done : ℕ
  all_time_upload : ℕ
  all_time_download : ℕ
  state : String
deriving DecidableEq, Repr

structure Handle where
  status : TorrentStatus
  files : List (String × ℕ)
  paused : Bool
  auto_managed : Bool
deriving DecidableEq, Repr

structure Metadata where
  added_time : ℚ
  save_path : String
  stopped_on_complete : Bool
  completed_at : Option ℚ
deriving DecidableEq, Repr

/-- A snapshotted file: `relative_path`, `absolute_path`, `size`
(main.py 476-480). -/
structure FileEntry where
  relative_path : String
  absolute_path : String
  size : ℕ
deriving DecidableEq, Repr, Inhabited

/-- A `completed_files[tid]` entry (main.py 518-522). -/
structure CompletedEntry where
  files : List FileEntry
  save_path : String
  name : String
deriving DecidableEq, Repr

/-- The archive `TEMP_DIR/{tid}.zip` as it sits on disk: its `st_size`, its
`st_mtime`, and the archive member names (`arcname=relative_path`,
main.py 751). -/
structure ZipFile where
  size : ℕ
  mtime : ℚ
  entries : List String
deriving DecidableEq, Repr

/-- Default directories (main.py 39-41). -/
def DOWNLOAD_DIR_S : String := "/srv/torrent-downloader/downloads"

def TEMP_DIR_S : String := "/srv/torrent-downloader/temp"

/-- `Path(save_path) / rel_path` (main.py 475, 724). -/
def joinPath (root rel : String) : String := root ++ "/" ++ rel

/-- The manager's shared mutable state plus the slice of the filesystem it
observes: `disk` is the set of absolute paths that currently exist, and
`zips` the archive cache directory `TEMP_DIR`. -/
structure MState where
  torrents : List (String × Handle)
  torrent_metadata : List (String × Metadata)
  completed_torrents : List (String × TorrentInfo)
  completed_files : List (String × CompletedEntry)
  zips : List (String × ZipFile)
  disk : List String
deriving DecidableEq, Repr

def initState : MState := ⟨[], [], [], [], [], []⟩

/-- An HTTP error outcome: `HTTPException(status_code, detail)`. -/
structure HttpErr where
  code : ℕ
  detail : String
deriving DecidableEq, Repr

/-! ### Ratio (main.py 497 and 687)

`ratio = status.all_time_upload / max(status.all_time_download, 1)` — both
counters are non-negative byte counts; Python `/` is exact here since we
compute in ℚ. -/

def ratioOf (up down : ℕ) : ℚ := (up : ℚ) / max (down : ℚ) 1

/-! ### ArchiveCache (`TorrentManager.build_zip_if_needed`, main.py 739-753) -/

/-- main.py 742: strip the characters `\/:*?"<>|` from the display name,
`strip()` the result, fall back to `"download"` when empty (Python
`or "download"` at both ends). -/
def sanitize_name (torrent_name : String) : String :=
  let base := if torrent_name = "" then "download" else torrent_name
  let filtered :=
    String.mk (base.data.filter (fun c => !(['\\', '/', ':', '*', '?', '"', '<', '>', '|'].contains c)))
  let stripped := pyStrip filtered
  if stripped = "" then "download" else stripped

def zipPathOf (tid : String) : String := TEMP_DIR_S ++ "/" ++ tid ++ ".zip"

/-- The on-disk size of a freshly written archive.  The exact compressed
size is irrelevant to the orchestration layer; what matters is that a
written zip is non-empty (it always contains at least the 22-byte
end-of-central-directory record). -/
def zipSizeOf (files : List FileEntry) : ℕ :=
  22 + (files.map (fun f => f.size + f.relative_path.length)).sum

/-- Writing the archive (main.py 748-751): one member per file entry with
`arcname` the relative path; the file's `st_mtime` becomes the write time. -/
def freshZip (files : List FileEntry) (buildTime : ℚ) : ZipFile :=
  { size := zipSizeOf files, mtime := buildTime, entries := files.map (·.relative_path) }

/-- main.py 739-753: reuse the cached zip when it exists, is non-empty and
its modification time is at least `snapshot_time`; otherwise rebuild it.
Returns `((zip_path, safe_base), state)`. -/
def build_zip_if_needed (st : MState) (tid : String) (files : List FileEntry)
    (torrent_name : String) (snapshot_time buildTime : ℚ) :
    (String × String) × MState :=
  let zp := zipPathOf tid
  let safe_base := sanitize_name torrent_name
  match alookup st.zips tid with
  | some z =>
    if 0 < z.size ∧ snapshot_time ≤ z.mtime then ((zp, safe_base), st)
    else ((zp, safe_base), { st with zips := ainsert st.zips tid (freshZip files buildTime) })
  | none => ((zp, safe_base), { st with zips := ainsert st.zips tid (freshZip files buildTime) })

/-! ### CompletionDetector (`TorrentManager.stop_if_completed`,
main.py 461-554) -/

/-- `self.torrent_metadata.get(torrent_id, {})` (main.py 463) together with
the per-key fallbacks used later: `save_path` defaults to `DOWNLOAD_DIR`
(main.py 475, 498) and `added_time` to `time.time()` (main.py 515). -/
def metaOf (st : MState) (tid : String) (now : ℚ) : Metadata :=
  (alookup st.torrent_metadata tid).getD
    { added_time := now, save_path := DOWNLOAD_DIR_S, stopped_on_complete := false,
      completed_at := none }

/-- `metadata.get('stopped_on_complete')` — the idempotency guard
(main.py 464). -/
def metaGuard (st : MState) (tid : String) : Bool :=
  ((alookup st.torrent_metadata tid).map (·.stopped_on_complete)).getD false

/-- The file-manifest snapshot (main.py 470-480): relative path, absolute
path resolved against the job's save root, and size. -/
def snapshotFiles (save_path : String) (files : List (String × ℕ)) : List FileEntry :=
  files.map (fun fr =>
    { relative_path := fr.1, absolute_path := joinPath save_path fr.1, size := fr.2 })

/-- The completed `TorrentInfo` record built at main.py 500-516: progress
pinned to 100, rates and peer/seed counts zeroed, totals and ratio taken
from the final engine status. -/
def completedInfo (tid : String) (status : TorrentStatus) (m : Metadata) : TorrentInfo :=
  { id := tid
    name := status.name
    state := "completed"
    progress := 100
    download_rate := 0
    upload_rate := 0
    num_peers := 0
    num_seeds := 0
    total_size := status.total_wanted
    downloaded := status.total_wanted
    uploaded := status.all_time_upload
    ratio := ratioOf status.all_time_upload status.all_time_download
    eta := 0
    save_path := m.save_path
    added_time := m.added_time }

/-- main.py 461-554.  Guarded by `stopped_on_complete`; snapshots the file
manifest and the final stats, records the completed info and file list,
prebuilds the archive when the job has more than one file, detaches the
handle from the engine (the engine-side `pause`/limit/unset-flags calls and
`session.remove_torrent` have no observable effect on the orchestration
state beyond dropping the handle), marks the guard with `completed_at :=
snapshot_time`, and drops the id from the active map. -/
def stop_if_completed (st : MState) (tid : String) (h : Handle)
    (status : TorrentStatus) (now : ℚ) : MState :=
  let metadata := metaOf st tid now
  if metadata.stopped_on_complete then st
  else
    let files_snapshot := snapshotFiles metadata.save_path h.files
    let save_path := metadata.save_path
    let snapshot_time := now
    let info := completedInfo tid status metadata
    let st1 : MState :=
      { st with
        completed_torrents := ainsert st.completed_torrents tid info
        completed_files := ainsert st.completed_files tid
          { files := files_snapshot, save_path := save_path, name := status.name } }
    let st2 : MState :=
      if 1 < files_snapshot.length then
        (build_zip_if_needed st1 tid files_snapshot status.name snapshot_time now).2
      else st1
    { st2 with
      torrent_metadata := ainsert st2.torrent_metadata tid
        { metadata with stopped_on_complete := true, completed_at := some snapshot_time }
      torrents := aerase st2.torrents tid }

/-! ### Monitor (`TorrentManager.monitor_torrents`, main.py 819-860)

Each tick walks a snapshot of the active map (`list(self.torrents.items())`)
and calls `stop_if_completed` for every job whose engine status reports
`progress >= 1.0`. -/

def tick_step (now : ℚ) (acc : MState) (p : String × Handle) : MState :=
  if 1 ≤ p.2.status.progress then stop_if_completed acc p.1 p.2 p.2.status now else acc

def monitor_tick (st : MState) (now : ℚ) : MState :=
  st.torrents.foldl (tick_step now) st

/-! ### Job submission (`TorrentManager.add_from_url` success paths,
main.py 296-373, and `add_torrent_file`, main.py 556-600)

All three locator classes and the upload endpoint end the same way: a fresh
`str(uuid.uuid4())` id is mapped to the new engine handle and to a metadata
dict with the submission time, the save path (defaulting to `DOWNLOAD_DIR`)
and `stopped_on_complete: False`.  UUID freshness means the id can never
collide with a live id; a collision is modelled as a no-op. -/

def add_torrent (st : MState) (tid : String) (h : Handle) (save_path : Option String)
    (now : ℚ) : MState :=
  if (alookup st.torrents tid).isSome || (alookup st.completed_torrents tid).isSome ||
      (alookup st.torrent_metadata tid).isSome then st
  else
    { st with
      torrents := ainsert st.torrents tid h
      torrent_metadata := ainsert st.torrent_metadata tid
        { added_time := now, save_path := save_path.getD DOWNLOAD_DIR_S,
          stopped_on_complete := false, completed_at := none } }

/-! ### Pause / resume (main.py 761-789) -/

def pause_torrent (st : MState) (tid : String) : Except HttpErr MState :=
  match alookup st.torrents tid with
  | none => .error { code := 404, detail := "Torrent not found" }
  | some h =>
    .ok { st with
          torrents := ainsert st.torrents tid { h with auto_managed := false, paused := true } }

def resume_torrent (st : MState) (tid : String) : Except HttpErr MState :=
  match alookup st.torrents tid with
  | none => .error { code := 404, detail := "Torrent not found" }
  | some h =>
    .ok { st with
          torrents := ainsert st.torrents tid { h with auto_managed := true, paused := false } }

/-! ### Removal (`TorrentManager.remove_torrent`, main.py 602-668) -/

/-- The save-root of a job (`torrent_metadata.get(tid, {}).get('save_path',
DOWNLOAD_DIR)`, main.py 718). -/
def savePathOf (st : MState) (tid : String) : String :=
  ((alookup st.torrent_metadata tid).map (·.save_path)).getD DOWNLOAD_DIR_S

def remove_torrent (st : MState) (tid : String) (deleteFiles : Bool) :
    Except HttpErr MState :=
  match alookup st.torrents tid with
  | some h =>
    let disk' :=
      if deleteFiles then
        st.disk.filter (fun p =>
          !((snapshotFiles (savePathOf st tid) h.files).map (·.absolute_path)).contains p)
      else st.disk
    .ok { st with
          disk := disk'
          torrents := aerase st.torrents tid
          torrent_metadata := aerase st.torrent_metadata tid
          zips := aerase st.zips tid }
  | none =>
    match alookup st.completed_torrents tid with
    | some _ =>
      let entryFiles := ((alookup st.completed_files tid).map (·.files)).getD []
      let disk' :=
        if deleteFiles then
          st.disk.filter (fun p => !(entryFiles.map (·.absolute_path)).contains p)
        else st.disk
      .ok { st with
            disk := disk'
            completed_torrents := aerase st.completed_torrents tid
            completed_files := aerase st.completed_files tid
            torrent_metadata := aerase st.torrent_metadata tid
            zips := aerase st.zips tid }
    | none => .error { code := 404, detail := "Torrent not found" }

/-! ### Status reporting (`TorrentManager.get_torrent_info`,
main.py 670-707, and `list_torrents`, main.py 755-759) -/

/-- The `TorrentInfo` built for an active handle (main.py 677-707).
`int()` truncation of the non-negative ETA coincides with the floor. -/
def active_info (st : MState) (tid : String) (h : Handle) : TorrentInfo :=
  let status := h.status
  let eta : ℤ :=
    if 0 < status.download_rate then
      Rat.floor (((status.total_wanted : ℚ) - (status.total_wanted_done : ℚ)) /
        status.download_rate)
    else -1
  { id := tid
    name := status.name
    state := status.state
    progress := status.progress * 100
    download_rate := status.download_rate
    upload_rate := status.upload_rate
    num_peers := status.num_peers
    num_seeds := status.num_seeds
    total_size := status.total_wanted
    downloaded := status.total_wanted_done
    uploaded := status.all_time_upload
    ratio := ratioOf status.all_time_upload status.all_time_download
    eta := eta
    save_path := savePathOf st tid
    added_time := ((alookup st.torrent_metadata tid).map (·.added_time)).getD 0 }

def get_torrent_info (st : MState) (tid : String) : Except HttpErr TorrentInfo :=
  match alookup st.torrents tid with
  | none =>
    match alookup st.completed_torrents tid with
    | some info => .ok info
    | none => .error { code := 404, detail := "Torrent not found" }
  | some h => .ok (active_info st tid h)

/-- main.py 755-759: all active infos plus all completed snapshots, sorted by
submission time, newest first. -/
def list_torrents (st : MState) : List TorrentInfo :=
  let active := st.torrents.map (fun p => active_info st p.1 p.2)
  let completed := st.completed_torrents.map Prod.snd
  (active ++ completed).mergeSort (fun a b => decide (b.added_time ≤ a.added_time))

/-! ### FileServer (`get_torrent_files` main.py 709-737 and the
`/api/torrents/{tid}/download` handler, main.py 1007-1063) -/

def get_torrent_files (st : MState) (tid : String) :
    Except HttpErr (List FileEntry × String) :=
  match alookup st.torrents tid with
  | some h => .ok (snapshotFiles (savePathOf st tid) h.files, h.status.name)
  | none =>
    match alookup st.completed_files tid with
    | some e => .ok (e.files, e.name)
    | none => .error { code := 404, detail := "Torrent not found or already stopped" }

/-- `pathlib.PurePosixPath` as far as the handler uses it: `is_absolute()`
and `parts`.  pathlib collapses repeated separators and `.` segments, so
`parts` never contains `""` or `"."`; an absolute path is one that starts
with `/` (the root `"/"` component itself is covered by `is_absolute`). -/
structure PyPath where
  absolute : Bool
  parts : List String
deriving DecidableEq, Repr

def splitSlash : List Char → List (List Char)
  | [] => [[]]
  | c :: rest =>
    let r := splitSlash rest
    if c = '/' then [] :: r
    else
      match r with
      | [] => [[c]]
      | hseg :: t => (c :: hseg) :: t

def parsePath (s : String) : PyPath :=
  { absolute := s.data.head? == some '/'
    parts := ((splitSlash s.data).map String.mk).filter (fun p => !(p == "" || p == ".")) }

/-- The traversal test of main.py 1021-1022:
`requested.is_absolute() or any(part in ("..", "") for part in
requested.parts)`. -/
def bad_path (s : String) : Bool :=
  (parsePath s).absolute || (parsePath s).parts.any (fun part => part == ".." || part == "")

/-- The freshness marker chosen by the download handler (main.py 1045):
`torrent_metadata.get(tid, {}).get('completed_at', time.time())`. -/
def download_snapshot_time (st : MState) (tid : String) (now : ℚ) : ℚ :=
  (((alookup st.torrent_metadata tid).map (·.completed_at)).getD none).getD now

inductive DownloadResult where
  | serveFile (path : String) (filename : String)
  | serveZip (path : String) (filename : String)
deriving DecidableEq, Repr

/-- `Path(abs).name`: the final path component. -/
def baseName (s : String) : String :=
  ((splitSlash s.data).map String.mk).getLastD ""

def noFilesErr : HttpErr :=
  { code := 404, detail := "No files available yet. The torrent may still be downloading." }

def invalidPathErr : HttpErr := { code := 400, detail := "Invalid file path" }

/-- The download handler, main.py 1007-1063.  Order of checks as in the
source: resolve the job's files (404 when unknown), filter to files that
exist on disk, fail 404 when none exists, then validate a requested
selector, then serve a single file directly or build/reuse the archive with
`download_snapshot_time` as freshness marker. -/
def download_torrent_files (st : MState) (tid : String) (fileSel : Option String)
    (now : ℚ) : Except HttpErr DownloadResult × MState :=
  match get_torrent_files st tid with
  | .error e => (.error e, st)
  | .ok (files, torrent_name) =>
    let existing_files := files.filter (fun f => st.disk.contains f.absolute_path)
    if existing_files = [] then (.error noFilesErr, st)
    else
      match fileSel with
      | some file =>
        if bad_path file then (.error invalidPathErr, st)
        else
          match existing_files.find? (fun fe => parsePath fe.relative_path == parsePath file) with
          | some fe =>
            (.ok (.serveFile fe.absolute_path (baseName fe.absolute_path)), st)
          | none =>
            (.error { code := 404, detail := "Requested file not found in torrent contents" }, st)
      | none =>
        if existing_files.length == 1 then
          let fe := existing_files.headI
          (.ok (.serveFile fe.absolute_path (baseName fe.absolute_path)), st)
        else
          let snapshot_time := download_snapshot_time st tid now
          let r := build_zip_if_needed st tid existing_files torrent_name snapshot_time now
          (.ok (.serveZip r.1.1 (r.1.2 ++ ".zip")), r.2)

/-! ### The observable process

Every mutation of the shared state happens inside one of the operations
below; the cooperative scheduler of the source runs them one at a time with
no suspension point inside a mutation, so an interleaved execution is a
sequence of these steps.  `engineWrite` is the transfer engine materialising
a file on disk; `engineUpdate` is its internal status evolving. -/

inductive Op where
  | add (tid : String) (h : Handle) (save_path : Option String) (now : ℚ)
  | tick (now : ℚ)
  | pause (tid : String)
  | resume (tid : String)
  | remove (tid : String) (deleteFiles : Bool)
  | download (tid : String) (fileSel : Option String) (now : ℚ)
  | engineWrite (path : String)
  | engineUpdate (tid : String) (status : TorrentStatus) (files : List (String × ℕ))

def stepOp (op : Op) (st : MState) : MState :=
  match op with
  | .add tid h sp now => add_torrent st tid h sp now
  | .tick now => monitor_tick st now
  | .pause tid =>
    match pause_torrent st tid with
    | .ok s => s
    | .error _ => st
  | .resume tid =>
    match resume_torrent st tid with
    | .ok s => s
    | .error _ => st
  | .remove tid df =>
    match remove_torrent st tid df with
    | .ok s => s
    | .error _ => st
  | .download tid sel now => (download_torrent_files st tid sel now).2
  | .engineWrite p => { st with disk := p :: st.disk }
  | .engineUpdate tid status files =>
    match alookup st.torrents tid with
    | some h =>
      { st with torrents := ainsert st.torrents tid { h with status := status, files := files } }
    | none => st

def runOps (ops : List Op) : MState :=
  ops.foldl (fun s o => stepOp o s) initState

def Reachable (st : MState) : Prop := ∃ ops, st = runOps ops

theorem reachable_step (st : MState) (op : Op) (h : Reachable st) :
    Reachable (stepOp op st) := by
  obtain ⟨ops, rfl⟩ := h
  refine ⟨ops ++ [op], ?_⟩
  simp [runOps, List.foldl_append]

theorem reachable_ind (P : MState → Prop) (h0 : P initState)
    (hstep : ∀ op st, P st → P (stepOp op st)) :
    ∀ st, Reachable st → P st := by
  rintro st ⟨ops, rfl⟩
  suffices hgen : ∀ (l : List Op) (s : MState), P s → P (l.foldl (fun s o => stepOp o s) s) by
    exact hgen ops initState h0
  intro l
  induction l with
  | nil => intro s hs; exact hs
  | cons o t ih => intro s hs; exact ih (stepOp o s) (hstep o s hs)

/-! ### Basic lemmas about the archive cache and the completion step -/

theorem build_zip_fst (st : MState) (tid : String) (files : List FileEntry)
    (nm : String) (ts bt : ℚ) :
    (build_zip_if_needed st tid files nm ts bt).1 = (zipPathOf tid, sanitize_name nm) := by
  unfold build_zip_if_needed
  cases hz : alookup st.zips tid
  · rfl
  · simp only []
    split <;> rfl

theorem build_zip_state (st : MState) (tid : String) (files : List FileEntry)
    (nm : String) (ts bt : ℚ) :
    (build_zip_if_needed st tid files nm ts bt).2 = st ∨
    (build_zip_if_needed st tid files nm ts bt).2 =
      { st with zips := ainsert st.zips tid (freshZip files bt) } := by
  unfold build_zip_if_needed
  cases hz : alookup st.zips tid
  · right; rfl
  · simp only []
    split
    · left; rfl
    · right; rfl

theorem build_zip_torrents (st : MState) (tid : String) (files : List FileEntry)
    (nm : String) (ts bt : ℚ) :
    (build_zip_if_needed st tid files nm ts bt).2.torrents = st.torrents := by
  rcases build_zip_state st tid files nm ts bt with h | h <;> rw [h]

theorem build_zip_completed (st : MState) (tid : String) (files : List FileEntry)
    (nm : String) (ts bt : ℚ) :
    (build_zip_if_needed st tid files nm ts bt).2.completed_torrents =
      st.completed_torrents := by
  rcases build_zip_state st tid files nm ts bt with h | h <;> rw [h]

theorem build_zip_completed_files (st : MState) (tid : String) (files : List FileEntry)
    (nm : String) (ts bt : ℚ) :
    (build_zip_if_needed st tid files nm ts bt).2.completed_files = st.completed_files := by
  rcases build_zip_state st tid files nm ts bt with h | h <;> rw [h]

theorem build_zip_metadata (st : MState) (tid : String) (files : List FileEntry)
    (nm : String) (ts bt : ℚ) :
    (build_zip_if_needed st tid files nm ts bt).2.torrent_metadata =
      st.torrent_metadata := by
  rcases build_zip_state st tid files nm ts bt with h | h <;> rw [h]

theorem build_zip_disk (st : MState) (tid : String) (files : List FileEntry)
    (nm : String) (ts bt : ℚ) :
    (build_zip_if_needed st tid files nm ts bt).2.disk = st.disk := by
  rcases build_zip_state st tid files nm ts bt with h | h <;> rw [h]

theorem build_zip_zips_ne (st : MState) (tid : String) (files : List FileEntry)
    (nm : String) (ts bt : ℚ) (tid' : String) (hne : tid' ≠ tid) :
    alookup (build_zip_if_needed st tid files nm ts bt).2.zips tid' =
      alookup st.zips tid' := by
  rcases build_zip_state st tid files nm ts bt with h | h <;> rw [h]
  exact alookup_ainsert_ne _ _ _ _ hne

theorem build_zip_zips_lookup (st : MState) (tid : String) (files : List FileEntry)
    (nm : String) (ts bt : ℚ) :
    alookup (build_zip_if_needed st tid files nm ts bt).2.zips tid =
      alookup st.zips tid ∨
    alookup (build_zip_if_needed st tid files nm ts bt).2.zips tid =
      some (freshZip files bt) := by
  rcases build_zip_state st tid files nm ts bt with h | h <;> rw [h]
  · left; rfl
  · right; exact alookup_ainsert_self _ _ _

theorem metaGuard_eq_metaOf (st : MState) (tid : String) (now : ℚ) :
    metaGuard st tid = (metaOf st tid now).stopped_on_complete := by
  unfold metaGuard metaOf
  cases alookup st.torrent_metadata tid <;> rfl

theorem stop_noop (st : MState) (tid : String) (h : Handle) (s : TorrentStatus)
    (now : ℚ) (hg : (metaOf st tid now).stopped_on_complete = true) :
    stop_if_completed st tid h s now = st := by
  unfold stop_if_completed
  simp [hg]

theorem stop_run (st : MState) (tid : String) (h : Handle) (s : TorrentStatus)
    (now : ℚ) (hg : (metaOf st tid now).stopped_on_complete = false) :
    alookup (stop_if_completed st tid h s now).completed_torrents tid =
      some (completedInfo tid s (metaOf st tid now)) ∧
    alookup (stop_if_completed st tid h s now).torrents tid = none ∧
    metaGuard (stop_if_completed st tid h s now) tid = true := by
  unfold stop_if_completed
  rw [if_neg (by simp [hg])]
  simp only [metaGuard]
  refine ⟨?_, ?_, ?_⟩
  · split
    · rw [build_zip_completed]
      exact alookup_ainsert_self _ _ _
    · exact alookup_ainsert_self _ _ _
  · exact alookup_aerase_self _ _
  · rw [alookup_ainsert_self]
    rfl

theorem stop_lookup_ne (st : MState) (k : String) (h : Handle) (s : TorrentStatus)
    (now : ℚ) (tid : String) (hne : tid ≠ k) :
    alookup (stop_if_completed st k h s now).torrents tid = alookup st.torrents tid ∧
    alookup (stop_if_completed st k h s now).completed_torrents tid =
      alookup st.completed_torrents tid ∧
    alookup (stop_if_completed st k h s now).torrent_metadata tid =
      alookup st.torrent_metadata tid ∧
    alookup (stop_if_completed st k h s now).completed_files tid =
      alookup st.completed_files tid ∧
    alookup (stop_if_completed st k h s now).zips tid = alookup st.zips tid := by
  unfold stop_if_completed
  by_cases hg : (metaOf st k now).stopped_on_complete = true
  · simp [hg]
  · rw [if_neg (by simpa using hg)]
    dsimp only
    refine ⟨?_, ?_, ?_, ?_, ?_⟩
    · rw [alookup_aerase_ne _ _ _ hne]
      split
      · rw [build_zip_torrents]
      · rfl
    · split
      · rw [build_zip_completed, alookup_ainsert_ne _ _ _ _ hne]
      · rw [alookup_ainsert_ne _ _ _ _ hne]
    · rw [alookup_ainsert_ne _ _ _ _ hne]
      split
      · rw [build_zip_metadata]
      · rfl
    · split
      · rw [build_zip_completed_files, alookup_ainsert_ne _ _ _ _ hne]
      · rw [alookup_ainsert_ne _ _ _ _ hne]
    · split
      · rw [build_zip_zips_ne _ _ _ _ _ _ _ hne]
      · rfl

/-! ### Per-operation shape lemmas -/

theorem metaGuard_congr (st st' : MState) (tid : String)
    (h : alookup st'.torrent_metadata tid = alookup st.torrent_metadata tid) :
    metaGuard st' tid = metaGuard st tid := by
  unfold metaGuard
  rw [h]

theorem alookup_ainsert_isSome_of_some {α : Type} (l : List (String × α)) (k : String)
    (v w : α) (hl : alookup l k = some w) (k' : String) :
    (alookup (ainsert l k v) k').isSome = (alookup l k').isSome := by
  by_cases hk : k' = k
  · subst hk
    rw [alookup_ainsert_self, hl]
    rfl
  · rw [alookup_ainsert_ne _ _ _ _ hk]

theorem tick_step_lookup_ne (now : ℚ) (acc : MState) (p : String × Handle) (tid : String)
    (h : tid ≠ p.1) :
    alookup (tick_step now acc p).torrents tid = alookup acc.torrents tid ∧
    alookup (tick_step now acc p).completed_torrents tid =
      alookup acc.completed_torrents tid ∧
    alookup (tick_step now acc p).torrent_metadata tid =
      alookup acc.torrent_metadata tid ∧
    alookup (tick_step now acc p).completed_files tid = alookup acc.completed_files tid ∧
    alookup (tick_step now acc p).zips tid = alookup acc.zips tid := by
  unfold tick_step
  split
  · exact stop_lookup_ne acc p.1 p.2 p.2.status now tid h
  · exact ⟨rfl, rfl, rfl, rfl, rfl⟩

theorem foldl_preserve (f : MState → String × Handle → MState) (P : MState → Prop)
    (hf : ∀ acc b, P acc → P (f acc b)) :
    ∀ (l : List (String × Handle)) (acc : MState), P acc → P (l.foldl f acc) := by
  intro l
  induction l with
  | nil => intro acc h; exact h
  | cons b t ih => intro acc h; exact ih (f acc b) (hf acc b h)

theorem foldl_tick_lookup_ne (now : ℚ) (tid : String) :
    ∀ (l : List (String × Handle)) (acc : MState), (∀ p ∈ l, p.1 ≠ tid) →
    alookup (l.foldl (tick_step now) acc).torrents tid = alookup acc.torrents tid ∧
    alookup (l.foldl (tick_step now) acc).completed_torrents tid =
      alookup acc.completed_torrents tid ∧
    alookup (l.foldl (tick_step now) acc).torrent_metadata tid =
      alookup acc.torrent_metadata tid := by
  intro l
  induction l with
  | nil => intro acc _; exact ⟨rfl, rfl, rfl⟩
  | cons p t ih =>
    intro acc hne
    have hp : tid ≠ p.1 := fun he => hne p (List.mem_cons_self p t) he.symm
    have hstep := tick_step_lookup_ne now acc p tid hp
    have hrest := ih (tick_step now acc p) (fun q hq => hne q (List.mem_cons_of_mem p hq))
    exact ⟨hrest.1.trans hstep.1, hrest.2.1.trans hstep.2.1, hrest.2.2.trans hstep.2.2.1⟩

theorem foldl_tick_stable (now : ℚ) (tid : String) (info : TorrentInfo) :
    ∀ (l : List (String × Handle)) (acc : MState),
    alookup acc.completed_torrents tid = some info →
    alookup acc.torrents tid = none →
    metaGuard acc tid = true →
    alookup (l.foldl (tick_step now) acc).completed_torrents tid = some info ∧
    alookup (l.foldl (tick_step now) acc).torrents tid = none ∧
    metaGuard (l.foldl (tick_step now) acc) tid = true := by
  intro l
  induction l with
  | nil => intro acc h1 h2 h3; exact ⟨h1, h2, h3⟩
  | cons p t ih =>
    intro acc h1 h2 h3
    by_cases hp : tid = p.1
    · have hstep : tick_step now acc p = acc := by
        unfold tick_step
        split
        · exact stop_noop acc p.1 p.2 p.2.status now
            (by rw [← metaGuard_eq_metaOf, ← hp]; exact h3)
        · rfl
      rw [List.foldl_cons, hstep]
      exact ih acc h1 h2 h3
    · have hstep := tick_step_lookup_ne now acc p tid hp
      exact ih (tick_step now acc p)
        (hstep.2.1.trans h1)
        (hstep.1.trans h2)
        ((metaGuard_congr acc (tick_step now acc p) tid hstep.2.2.1).trans h3)

theorem stop_zips_self (st : MState) (k : String) (h : Handle) (s : TorrentStatus)
    (now : ℚ) :
    alookup (stop_if_completed st k h s now).zips k = alookup st.zips k ∨
    ∃ files : List FileEntry, 1 < files.length ∧
      alookup (stop_if_completed st k h s now).zips k = some (freshZip files now) := by
  unfold stop_if_completed
  by_cases hg : (metaOf st k now).stopped_on_complete = true
  · left; simp [hg]
  · rw [if_neg (by simpa using hg)]
    dsimp only
    split
    · rcases build_zip_zips_lookup
        { st with
          completed_torrents := ainsert st.completed_torrents k
            (completedInfo k s (metaOf st k now))
          completed_files := ainsert st.completed_files k
            { files := snapshotFiles (metaOf st k now).save_path h.files,
              save_path := (metaOf st k now).save_path, name := s.name } }
        k (snapshotFiles (metaOf st k now).save_path h.files) s.name now now with hz | hz
      · left; rw [hz]
      · right
        exact ⟨snapshotFiles (metaOf st k now).save_path h.files, by assumption, hz⟩
    · left; rfl

theorem add_state_cases (st : MState) (tid : String) (h : Handle)
    (sp : Option String) (now : ℚ) :
    stepOp (.add tid h sp now) st = st ∨
    (alookup st.torrents tid = none ∧ alookup st.completed_torrents tid = none ∧
     alookup st.torrent_metadata tid = none ∧
     stepOp (.add tid h sp now) st =
       { st with
         torrents := ainsert st.torrents tid h
         torrent_metadata := ainsert st.torrent_metadata tid
           { added_time := now, save_path := sp.getD DOWNLOAD_DIR_S,
             stopped_on_complete := false, completed_at := none } }) := by
  simp only [stepOp]
  unfold add_torrent
  by_cases hc : ((alookup st.torrents tid).isSome || (alookup st.completed_torrents tid).isSome
      || (alookup st.torrent_metadata tid).isSome) = true
  · left; rw [if_pos hc]
  · right
    have hc' := hc
    rw [Bool.or_eq_true, Bool.or_eq_true] at hc'
    push_neg at hc'
    refine ⟨?_, ?_, ?_, ?_⟩
    · cases hx : alookup st.torrents tid
      · rfl
      · exact absurd (by rw [hx]; rfl) hc'.1.1
    · cases hx : alookup st.completed_torrents tid
      · rfl
      · exact absurd (by rw [hx]; rfl) hc'.1.2
    · cases hx : alookup st.torrent_metadata tid
      · rfl
      · exact absurd (by rw [hx]; rfl) hc'.2
    · rw [if_neg hc]

theorem pause_state_cases (st : MState) (tid : String) :
    stepOp (.pause tid) st = st ∨
    ∃ hnd : Handle, alookup st.torrents tid = some hnd ∧
      stepOp (.pause tid) st =
        { st with torrents :=
            ainsert st.torrents tid ({ hnd with auto_managed := false, paused := true }) } := by
  simp only [stepOp]
  unfold pause_torrent
  cases hl : alookup st.torrents tid
  · left; rfl
  · right; exact ⟨_, rfl, rfl⟩

theorem resume_state_cases (st : MState) (tid : String) :
    stepOp (.resume tid) st = st ∨
    ∃ hnd : Handle, alookup st.torrents tid = some hnd ∧
      stepOp (.resume tid) st =
        { st with torrents :=
            ainsert st.torrents tid ({ hnd with auto_managed := true, paused := false }) } := by
  simp only [stepOp]
  unfold resume_torrent
  cases hl : alookup st.torrents tid
  · left; rfl
  · right; exact ⟨_, rfl, rfl⟩

theorem engineUpdate_state_cases (st : MState) (tid : String) (status : TorrentStatus)
    (files : List (String × ℕ)) :
    stepOp (.engineUpdate tid status files) st = st ∨
    ∃ hnd : Handle, alookup st.torrents tid = some hnd ∧
      stepOp (.engineUpdate tid status files) st =
        { st with torrents :=
            ainsert st.torrents tid ({ hnd with status := status, files := files }) } := by
  simp only [stepOp]
  cases hl : alookup st.torrents tid
  · left; rfl
  · right; exact ⟨_, rfl, rfl⟩

theorem remove_state_cases (st : MState) (tid : String) (df : Bool) :
    stepOp (.remove tid df) st = st ∨
    (∃ d', stepOp (.remove tid df) st =
      { st with
        disk := d'
        torrents := aerase st.torrents tid
        torrent_metadata := aerase st.torrent_metadata tid
        zips := aerase st.zips tid }) ∨
    (∃ d', stepOp (.remove tid df) st =
      { st with
        disk := d'
        completed_torrents := aerase st.completed_torrents tid
        completed_files := aerase st.completed_files tid
        torrent_metadata := aerase st.torrent_metadata tid
        zips := aerase st.zips tid }) := by
  simp only [stepOp]
  unfold remove_torrent
  cases hl : alookup st.torrents tid
  · cases hc : alookup st.completed_torrents tid
    · left; rfl
    · right; right; exact ⟨_, rfl⟩
  · right; left; exact ⟨_, rfl⟩

theorem remove_lookups (st : MState) (tid : String) (df : Bool) (k : String) :
    (alookup (stepOp (.remove tid df) st).torrents k = alookup st.torrents k ∨
     alookup (stepOp (.remove tid df) st).torrents k = none) ∧
    (alookup (stepOp (.remove tid df) st).completed_torrents k =
       alookup st.completed_torrents k ∨
     alookup (stepOp (.remove tid df) st).completed_torrents k = none) ∧
    (alookup (stepOp (.remove tid df) st).torrent_metadata k =
       alookup st.torrent_metadata k ∨
     alookup (stepOp (.remove tid df) st).torrent_metadata k = none) ∧
    (alookup (stepOp (.remove tid df) st).completed_files k =
       alookup st.completed_files k ∨
     alookup (stepOp (.remove tid df) st).completed_files k = none) ∧
    (alookup (stepOp (.remove tid df) st).zips k = alookup st.zips k ∨
     alookup (stepOp (.remove tid df) st).zips k = none) := by
  rcases remove_state_cases st tid df with h | ⟨d', h⟩ | ⟨d', h⟩ <;> rw [h]
  · exact ⟨Or.inl rfl, Or.inl rfl, Or.inl rfl, Or.inl rfl, Or.inl rfl⟩
  · by_cases hk : k = tid
    · subst hk
      exact ⟨Or.inr (alookup_aerase_self _ _), Or.inl rfl,
        Or.inr (alookup_aerase_self _ _), Or.inl rfl, Or.inr (alookup_aerase_self _ _)⟩
    · exact ⟨Or.inl (alookup_aerase_ne _ _ _ hk), Or.inl rfl,
        Or.inl (alookup_aerase_ne _ _ _ hk), Or.inl rfl, Or.inl (alookup_aerase_ne _ _ _ hk)⟩
  · by_cases hk : k = tid
    · subst hk
      exact ⟨Or.inl rfl, Or.inr (alookup_aerase_self _ _), Or.inr (alookup_aerase_self _ _),
        Or.inr (alookup_aerase_self _ _), Or.inr (alookup_aerase_self _ _)⟩
    · exact ⟨Or.inl rfl, Or.inl (alookup_aerase_ne _ _ _ hk),
        Or.inl (alookup_aerase_ne _ _ _ hk), Or.inl (alookup_aerase_ne _ _ _ hk),
        Or.inl (alookup_aerase_ne _ _ _ hk)⟩

theorem download_state_cases (st : MState) (tid : String) (sel : Option String) (now : ℚ) :
    stepOp (.download tid sel now) st = st ∨
    ∃ ef nm, 1 < ef.length ∧
      stepOp (.download tid sel now) st =
        (build_zip_if_needed st tid ef nm (download_snapshot_time st tid now) now).2 := by
  simp only [stepOp]
  unfold download_torrent_files
  cases hg : get_torrent_files st tid with
  | error e => left; rfl
  | ok pr =>
    obtain ⟨files, nm⟩ := pr
    dsimp only
    by_cases he : files.filter (fun f => st.disk.contains f.absolute_path) = []
    · left; rw [if_pos he]
    · rw [if_neg he]
      cases sel with
      | some f =>
        dsimp only
        by_cases hb : bad_path f = true
        · left; rw [if_pos hb]
        · rw [if_neg hb]
          cases hf : (files.filter (fun f => st.disk.contains f.absolute_path)).find?
              (fun fe => parsePath fe.relative_path == parsePath f)
          · left; rfl
          · left; rfl
      | none =>
        dsimp only
        by_cases hlen :
            ((files.filter (fun f => st.disk.contains f.absolute_path)).length == 1) = true
        · left; rw [if_pos hlen]
        · rw [if_neg hlen]
          right
          refine ⟨files.filter (fun f => st.disk.contains f.absolute_path), nm, ?_, rfl⟩
          have h0 : (files.filter (fun f => st.disk.contains f.absolute_path)).length ≠ 0 :=
            fun hz => he (List.length_eq_zero.mp hz)
          have h1 : (files.filter (fun f => st.disk.contains f.absolute_path)).length ≠ 1 := by
            intro hz
            exact hlen (by rw [hz]; rfl)
          omega

theorem download_fields (st : MState) (tid : String) (sel : Option String) (now : ℚ) :
    (stepOp (.download tid sel now) st).torrents = st.torrents ∧
    (stepOp (.download tid sel now) st).completed_torrents = st.completed_torrents ∧
    (stepOp (.download tid sel now) st).torrent_metadata = st.torrent_metadata ∧
    (stepOp (.download tid sel now) st).completed_files = st.completed_files ∧
    (stepOp (.download tid sel now) st).disk = st.disk := by
  rcases download_state_cases st tid sel now with h | ⟨ef, nm, _, h⟩ <;> rw [h]
  · exact ⟨rfl, rfl, rfl, rfl, rfl⟩
  · exact ⟨build_zip_torrents .., build_zip_completed .., build_zip_metadata ..,
      build_zip_completed_files .., build_zip_disk ..⟩

/-! ### Global invariants of the reachable states -/

/-- A job id is in at most one of the active and completed registries. -/
def DisjInv (st : MState) : Prop :=
  ∀ k, ¬((alookup st.torrents k).isSome = true ∧
        (alookup st.completed_torrents k).isSome = true)

/-- An active job has never been through the completion step. -/
def GuardInv (st : MState) : Prop :=
  ∀ k, (alookup st.torrents k).isSome = true → metaGuard st k = false

/-- Every cached archive holds more than one member. -/
def ZipInv (st : MState) : Prop :=
  ∀ k z, alookup st.zips k = some z → 1 < z.entries.length

/-- Every completed snapshot's ratio is `uploaded / max(d, 1)` for the
engine's downloaded-byte counter `d`. -/
def RatioInv (st : MState) : Prop :=
  ∀ k info, alookup st.completed_torrents k = some info →
    ∃ d, info.ratio = ratioOf info.uploaded d

theorem stop_preserves_disj (acc : MState) (k : String) (h : Handle) (s : TorrentStatus)
    (now : ℚ) (hd : DisjInv acc) : DisjInv (stop_if_completed acc k h s now) := by
  intro tid
  by_cases hk : tid = k
  · subst hk
    by_cases hg : (metaOf acc tid now).stopped_on_complete = true
    · rw [stop_noop _ _ _ _ _ hg]
      exact hd tid
    · have hr := stop_run acc tid h s now (by simpa using hg)
      intro hcon
      rw [hr.2.1] at hcon
      simp at hcon
  · intro hcon
    have hne := stop_lookup_ne acc k h s now tid hk
    rw [hne.1, hne.2.1] at hcon
    exact hd tid hcon

theorem tick_step_preserves_disj (now : ℚ) (acc : MState) (p : String × Handle)
    (hd : DisjInv acc) : DisjInv (tick_step now acc p) := by
  unfold tick_step
  split
  · exact stop_preserves_disj acc p.1 p.2 p.2.status now hd
  · exact hd

theorem step_preserves_disj (op : Op) (st : MState) (hd : DisjInv st) :
    DisjInv (stepOp op st) := by
  cases op with
  | add tid h sp now =>
    rcases add_state_cases st tid h sp now with heq | ⟨h1, h2, h3, heq⟩ <;> rw [heq]
    · exact hd
    · intro k hcon
      dsimp only at hcon
      by_cases hk : k = tid
      · subst hk
        rw [h2] at hcon
        simp at hcon
      · rw [alookup_ainsert_ne _ _ _ _ hk] at hcon
        exact hd k hcon
  | tick now =>
    exact foldl_preserve (tick_step now) DisjInv (tick_step_preserves_disj now)
      st.torrents st hd
  | pause tid =>
    rcases pause_state_cases st tid with heq | ⟨hnd, hl, heq⟩ <;> rw [heq]
    · exact hd
    · intro k hcon
      dsimp only at hcon
      rw [alookup_ainsert_isSome_of_some _ _ _ _ hl] at hcon
      exact hd k hcon
  | resume tid =>
    rcases resume_state_cases st tid with heq | ⟨hnd, hl, heq⟩ <;> rw [heq]
    · exact hd
    · intro k hcon
      dsimp only at hcon
      rw [alookup_ainsert_isSome_of_some _ _ _ _ hl] at hcon
      exact hd k hcon
  | remove tid df =>
    intro k hcon
    have hr := remove_lookups st tid df k
    rcases hr.1 with h1 | h1
    · rcases hr.2.1 with h2 | h2
      · rw [h1, h2] at hcon
        exact hd k hcon
      · rw [h2] at hcon
        simp at hcon
    · rw [h1] at hcon
      simp at hcon
  | download tid sel now =>
    intro k hcon
    have hf := download_fields st tid sel now
    rw [hf.1, hf.2.1] at hcon
    exact hd k hcon
  | engineWrite p =>
    intro k hcon
    exact hd k hcon
  | engineUpdate tid status files =>
    rcases engineUpdate_state_cases st tid status files with heq | ⟨hnd, hl, heq⟩ <;> rw [heq]
    · exact hd
    · intro k hcon
      dsimp only at hcon
      rw [alookup_ainsert_isSome_of_some _ _ _ _ hl] at hcon
      exact hd k hcon

theorem disj_inv (st : MState) (h : Reachable st) : DisjInv st := by
  refine reachable_ind DisjInv ?_ step_preserves_disj st h
  intro k
  simp [initState, alookup]

theorem stop_preserves_guard (acc : MState) (k : String) (h : Handle) (s : TorrentStatus)
    (now : ℚ) (hg : GuardInv acc) : GuardInv (stop_if_completed acc k h s now) := by
  intro tid h1
  by_cases hk : tid = k
  · subst hk
    by_cases hgu : (metaOf acc tid now).stopped_on_complete = true
    · rw [stop_noop _ _ _ _ _ hgu] at h1 ⊢
      exact hg tid h1
    · have hr := stop_run acc tid h s now (by simpa using hgu)
      rw [hr.2.1] at h1
      simp at h1
  · have hne := stop_lookup_ne acc k h s now tid hk
    rw [hne.1] at h1
    rw [metaGuard_congr acc _ tid hne.2.2.1]
    exact hg tid h1

theorem tick_step_preserves_guard (now : ℚ) (acc : MState) (p : String × Handle)
    (hg : GuardInv acc) : GuardInv (tick_step now acc p) := by
  unfold tick_step
  split
  · exact stop_preserves_guard acc p.1 p.2 p.2.status now hg
  · exact hg

theorem step_preserves_guard (op : Op) (st : MState) (hg : GuardInv st) :
    GuardInv (stepOp op st) := by
  cases op with
  | add tid h sp now =>
    rcases add_state_cases st tid h sp now with heq | ⟨h1, h2, h3, heq⟩ <;> rw [heq]
    · exact hg
    · intro k hk1
      dsimp only at hk1
      by_cases hk : k = tid
      · subst hk
        unfold metaGuard
        dsimp only
        rw [alookup_ainsert_self]
        rfl
      · rw [alookup_ainsert_ne _ _ _ _ hk] at hk1
        have hmg : metaGuard
            { st with
              torrents := ainsert st.torrents tid h
              torrent_metadata := ainsert st.torrent_metadata tid
                { added_time := now, save_path := sp.getD DOWNLOAD_DIR_S,
                  stopped_on_complete := false, completed_at := none } } k = metaGuard st k := by
          apply metaGuard_congr
          exact alookup_ainsert_ne _ _ _ _ hk
        rw [hmg]
        exact hg k hk1
  | tick now =>
    exact foldl_preserve (tick_step now) GuardInv (tick_step_preserves_guard now)
      st.torrents st hg
  | pause tid =>
    rcases pause_state_cases st tid with heq | ⟨hnd, hl, heq⟩ <;> rw [heq]
    · exact hg
    · intro k hk1
      dsimp only at hk1
      rw [alookup_ainsert_isSome_of_some _ _ _ _ hl] at hk1
      exact hg k hk1
  | resume tid =>
    rcases resume_state_cases st tid with heq | ⟨hnd, hl, heq⟩ <;> rw [heq]
    · exact hg
    · intro k hk1
      dsimp only at hk1
      rw [alookup_ainsert_isSome_of_some _ _ _ _ hl] at hk1
      exact hg k hk1
  | remove tid df =>
    intro k hk1
    have hr := remove_lookups st tid df k
    rcases hr.1 with h1 | h1
    · rcases hr.2.2.1 with h2 | h2
      · rw [h1] at hk1
        rw [metaGuard_congr st _ k h2]
        exact hg k hk1
      · unfold metaGuard
        rw [h2]
        rfl
    · rw [h1] at hk1
      simp at hk1
  | download tid sel now =>
    intro k hk1
    have hf := download_fields st tid sel now
    rw [hf.1] at hk1
    rw [metaGuard_congr st _ k (by rw [hf.2.2.1])]
    exact hg k hk1
  | engineWrite p =>
    intro k hk1
    exact hg k hk1
  | engineUpdate tid status files =>
    rcases engineUpdate_state_cases st tid status files with heq | ⟨hnd, hl, heq⟩ <;> rw [heq]
    · exact hg
    · intro k hk1
      dsimp only at hk1
      rw [alookup_ainsert_isSome_of_some _ _ _ _ hl] at hk1
      exact hg k hk1

theorem guard_inv (st : MState) (h : Reachable st) : GuardInv st := by
  refine reachable_ind GuardInv ?_ step_preserves_guard st h
  intro k hk
  simp [initState, alookup] at hk

theorem stop_preserves_zip (acc : MState) (k : String) (h : Handle) (s : TorrentStatus)
    (now : ℚ) (hz : ZipInv acc) : ZipInv (stop_if_completed acc k h s now) := by
  intro tid z h1
  by_cases hk : tid = k
  · subst hk
    rcases stop_zips_self acc tid h s now with he | ⟨files, hlen, he⟩
    · rw [he] at h1
      exact hz tid z h1
    · rw [he] at h1
      injection h1 with h1
      rw [← h1]
      simpa [freshZip] using hlen
  · have hne := stop_lookup_ne acc k h s now tid hk
    rw [hne.2.2.2.2] at h1
    exact hz tid z h1

theorem tick_step_preserves_zip (now : ℚ) (acc : MState) (p : String × Handle)
    (hz : ZipInv acc) : ZipInv (tick_step now acc p) := by
  unfold tick_step
  split
  · exact stop_preserves_zip acc p.1 p.2 p.2.status now hz
  · exact hz

theorem step_preserves_zip (op : Op) (st : MState) (hz : ZipInv st) :
    ZipInv (stepOp op st) := by
  cases op with
  | add tid h sp now =>
    rcases add_state_cases st tid h sp now with heq | ⟨h1, h2, h3, heq⟩ <;> rw [heq]
    · exact hz
    · intro k z hk1
      dsimp only at hk1
      exact hz k z hk1
  | tick now =>
    exact foldl_preserve (tick_step now) ZipInv (tick_step_preserves_zip now)
      st.torrents st hz
  | pause tid =>
    rcases pause_state_cases st tid with heq | ⟨hnd, hl, heq⟩ <;> rw [heq]
    · exact hz
    · intro k z hk1
      dsimp only at hk1
      exact hz k z hk1
  | resume tid =>
    rcases resume_state_cases st tid with heq | ⟨hnd, hl, heq⟩ <;> rw [heq]
    · exact hz
    · intro k z hk1
      dsimp only at hk1
      exact hz k z hk1
  | remove tid df =>
    intro k z hk1
    have hr := remove_lookups st tid df k
    rcases hr.2.2.2.2 with h1 | h1
    · rw [h1] at hk1
      exact hz k z hk1
    · rw [h1] at hk1
      exact absurd hk1 (by simp)
  | download tid sel now =>
    rcases download_state_cases st tid sel now with heq | ⟨ef, nm, hlen, heq⟩ <;> rw [heq]
    · exact hz
    · intro k z hk1
      by_cases hk : k = tid
      · subst hk
        rcases build_zip_zips_lookup st k ef nm (download_snapshot_time st k now) now
            with he | he
        · rw [he] at hk1
          exact hz k z hk1
        · rw [he] at hk1
          injection hk1 with hk1
          rw [← hk1]
          simpa [freshZip] using hlen
      · rw [build_zip_zips_ne _ _ _ _ _ _ _ hk] at hk1
        exact hz k z hk1
  | engineWrite p =>
    intro k z hk1
    exact hz k z hk1
  | engineUpdate tid status files =>
    rcases engineUpdate_state_cases st tid status files with heq | ⟨hnd, hl, heq⟩ <;> rw [heq]
    · exact hz
    · intro k z hk1
      dsimp only at hk1
      exact hz k z hk1

theorem zip_inv (st : MState) (h : Reachable st) : ZipInv st := by
  refine reachable_ind ZipInv ?_ step_preserves_zip st h
  intro k z hk
  simp [initState, alookup] at hk

theorem stop_preserves_ratio (acc : MState) (k : String) (h : Handle) (s : TorrentStatus)
    (now : ℚ) (hr : RatioInv acc) : RatioInv (stop_if_completed acc k h s now) := by
  intro tid info h1
  by_cases hk : tid = k
  · subst hk
    by_cases hgu : (metaOf acc tid now).stopped_on_complete = true
    · rw [stop_noop _ _ _ _ _ hgu] at h1
      exact hr tid info h1
    · have hs := stop_run acc tid h s now (by simpa using hgu)
      rw [hs.1] at h1
      injection h1 with h1
      refine ⟨s.all_time_download, ?_⟩
      rw [← h1]
      rfl
  · have hne := stop_lookup_ne acc k h s now tid hk
    rw [hne.2.1] at h1
    exact hr tid info h1

theorem tick_step_preserves_ratio (now : ℚ) (acc : MState) (p : String × Handle)
    (hr : RatioInv acc) : RatioInv (tick_step now acc p) := by
  unfold tick_step
  split
  · exact stop_preserves_ratio acc p.1 p.2 p.2.status now hr
  · exact hr

theorem step_preserves_ratio (op : Op) (st : MState) (hr : RatioInv st) :
    RatioInv (stepOp op st) := by
  cases op with
  | add tid h sp now =>
    rcases add_state_cases st tid h sp now with heq | ⟨h1, h2, h3, heq⟩ <;> rw [heq]
    · exact hr
    · intro k info hk1
      dsimp only at hk1
      exact hr k info hk1
  | tick now =>
    exact foldl_preserve (tick_step now) RatioInv (tick_step_preserves_ratio now)
      st.torrents st hr
  | pause tid =>
    rcases pause_state_cases st tid with heq | ⟨hnd, hl, heq⟩ <;> rw [heq]
    · exact hr
    · intro k info hk1
      dsimp only at hk1
      exact hr k info hk1
  | resume tid =>
    rcases resume_state_cases st tid with heq | ⟨hnd, hl, heq⟩ <;> rw [heq]
    · exact hr
    · intro k info hk1
      dsimp only at hk1
      exact hr k info hk1
  | remove tid df =>
    intro k info hk1
    have hrem := remove_lookups st tid df k
    rcases hrem.2.1 with h1 | h1
    · rw [h1] at hk1
      exact hr k info hk1
    · rw [h1] at hk1
      exact absurd hk1 (by simp)
  | download tid sel now =>
    intro k info hk1
    have hf := download_fields st tid sel now
    rw [hf.2.1] at hk1
    exact hr k info hk1
  | engineWrite p =>
    intro k info hk1
    exact hr k info hk1
  | engineUpdate tid status files =>
    rcases engineUpdate_state_cases st tid status files with heq | ⟨hnd, hl, heq⟩ <;> rw [heq]
    · exact hr
    · intro k info hk1
      dsimp only at hk1
      exact hr k info hk1

theorem ratio_inv (st : MState) (h : Reachable st) : RatioInv st := by
  refine reachable_ind RatioInv ?_ step_preserves_ratio st h
  intro k info hk
  simp [initState, alookup] at hk

/-! ### Presence and transition lemmas for the registry-exclusivity claim -/

/-- The id is known to the process: in the active map or in the completed
map. -/
def presentIn (st : MState) (tid : String) : Prop :=
  (alookup st.torrents tid).isSome = true ∨
  (alookup st.completed_torrents tid).isSome = true

theorem remove_lookups_ne (st : MState) (tid : String) (df : Bool) (k : String)
    (hk : k ≠ tid) :
    alookup (stepOp (.remove tid df) st).torrents k = alookup st.torrents k ∧
    alookup (stepOp (.remove tid df) st).completed_torrents k =
      alookup st.completed_torrents k ∧
    alookup (stepOp (.remove tid df) st).torrent_metadata k =
      alookup st.torrent_metadata k ∧
    alookup (stepOp (.remove tid df) st).completed_files k = alookup st.completed_files k ∧
    alookup (stepOp (.remove tid df) st).zips k = alookup st.zips k := by
  rcases remove_state_cases st tid df with h | ⟨d', h⟩ | ⟨d', h⟩ <;> rw [h]
  · exact ⟨rfl, rfl, rfl, rfl, rfl⟩
  · exact ⟨alookup_aerase_ne _ _ _ hk, rfl, alookup_aerase_ne _ _ _ hk, rfl,
      alookup_aerase_ne _ _ _ hk⟩
  · exact ⟨rfl, alookup_aerase_ne _ _ _ hk, alookup_aerase_ne _ _ _ hk,
      alookup_aerase_ne _ _ _ hk, alookup_aerase_ne _ _ _ hk⟩

theorem tick_step_presence (now : ℚ) (acc : MState) (p : String × Handle) (tid : String)
    (hp : presentIn acc tid) : presentIn (tick_step now acc p) tid := by
  unfold tick_step
  split
  · by_cases hgu : (metaOf acc p.1 now).stopped_on_complete = true
    · rw [stop_noop _ _ _ _ _ hgu]
      exact hp
    · by_cases hk : tid = p.1
      · have hs := stop_run acc p.1 p.2 p.2.status now (by simpa using hgu)
        right
        rw [hk, hs.1]
        rfl
      · have hne := stop_lookup_ne acc p.1 p.2 p.2.status now tid hk
        rcases hp with h | h
        · left; rw [hne.1]; exact h
        · right; rw [hne.2.1]; exact h
  · exact hp

theorem tick_step_torrents_mono (now : ℚ) (acc : MState) (p : String × Handle)
    (tid : String)
    (h : (alookup (tick_step now acc p).torrents tid).isSome = true) :
    (alookup acc.torrents tid).isSome = true := by
  unfold tick_step at h
  split at h
  · by_cases hk : tid = p.1
    · by_cases hgu : (metaOf acc p.1 now).stopped_on_complete = true
      · rw [stop_noop _ _ _ _ _ hgu] at h
        exact h
      · have hs := stop_run acc p.1 p.2 p.2.status now (by simpa using hgu)
        rw [hk, hs.2.1] at h
        simp at h
    · have hne := stop_lookup_ne acc p.1 p.2 p.2.status now tid hk
      rw [hne.1] at h
      exact h
  · exact h

theorem foldl_tick_torrents_mono (now : ℚ) (tid : String) :
    ∀ (l : List (String × Handle)) (acc : MState),
    (alookup (l.foldl (tick_step now) acc).torrents tid).isSome = true →
    (alookup acc.torrents tid).isSome = true := by
  intro l
  induction l with
  | nil => intro acc h; exact h
  | cons p t ih =>
    intro acc h
    rw [List.foldl_cons] at h
    exact tick_step_torrents_mono now acc p tid (ih (tick_step now acc p) h)

theorem foldl_tick_completed_gain (now : ℚ) (tid : String) :
    ∀ (l : List (String × Handle)) (acc : MState),
    (alookup (l.foldl (tick_step now) acc).completed_torrents tid).isSome = true →
    (alookup acc.completed_torrents tid).isSome = true ∨ ∃ h, (tid, h) ∈ l := by
  intro l
  induction l with
  | nil => intro acc h; left; exact h
  | cons p t ih =>
    intro acc h
    rw [List.foldl_cons] at h
    rcases ih (tick_step now acc p) h with h1 | ⟨hh, hmem⟩
    · by_cases hk : tid = p.1
      · right
        refine ⟨p.2, ?_⟩
        have : (tid, p.2) = p := by
          rw [hk]
        rw [this]
        exact List.mem_cons_self p t
      · have hne := tick_step_lookup_ne now acc p tid hk
        rw [hne.2.1] at h1
        left
        exact h1
    · right
      exact ⟨hh, List.mem_cons_of_mem p hmem⟩

theorem disj_torrents_false (st : MState) (hd : DisjInv st) (tid : String)
    (hc : (alookup st.completed_torrents tid).isSome = true) :
    (alookup st.torrents tid).isSome = false := by
  cases hx : (alookup st.torrents tid).isSome
  · rfl
  · exact absurd ⟨hx, hc⟩ (hd tid)

/-- C1: in every reachable state, a job id is never in both the active and
the completed registry; every operation except removing that very id keeps a
present id present (never neither); an id can newly appear in the completed
registry only during a monitor tick and only if it was in the active map
just before (the completion step is the only active-to-completed
transition); and an id in the completed registry is never in the active map
after any further operation (the transition is one-way). -/
theorem claim1_registry_exclusive (st : MState) (hr : Reachable st) :
    (∀ tid, ¬((alookup st.torrents tid).isSome = true ∧
        (alookup st.completed_torrents tid).isSome = true)) ∧
    (∀ op tid, presentIn st tid →
        presentIn (stepOp op st) tid ∨ ∃ df, op = Op.remove tid df) ∧
    (∀ op tid, (alookup st.completed_torrents tid).isSome = false →
        (alookup (stepOp op st).completed_torrents tid).isSome = true →
        (alookup st.torrents tid).isSome = true ∧ ∃ now, op = Op.tick now) ∧
    (∀ op tid, (alookup st.completed_torrents tid).isSome = true →
        (alookup (stepOp op st).torrents tid).isSome = false) := by
  have hd := disj_inv st hr
  refine ⟨hd, ?_, ?_, ?_⟩
  · intro op tid hp
    cases op with
    | add aid h sp now =>
      left
      rcases add_state_cases st aid h sp now with heq | ⟨h1, h2, h3, heq⟩ <;> rw [heq]
      · exact hp
      · by_cases hk : tid = aid
        · left
          dsimp only
          rw [hk, alookup_ainsert_self]
          rfl
        · rcases hp with h | h
          · left
            dsimp only
            rw [alookup_ainsert_ne _ _ _ _ hk]
            exact h
          · right
            exact h
    | tick now =>
      left
      exact foldl_preserve (tick_step now) (fun acc => presentIn acc tid)
        (fun acc p hacc => tick_step_presence now acc p tid hacc) st.torrents st hp
    | pause pid =>
      left
      rcases pause_state_cases st pid with heq | ⟨hnd, hl, heq⟩ <;> rw [heq]
      · exact hp
      · rcases hp with h | h
        · left
          dsimp only
          rw [alookup_ainsert_isSome_of_some _ _ _ _ hl]
          exact h
        · right
          exact h
    | resume pid =>
      left
      rcases resume_state_cases st pid with heq | ⟨hnd, hl, heq⟩ <;> rw [heq]
      · exact hp
      · rcases hp with h | h
        · left
          dsimp only
          rw [alookup_ainsert_isSome_of_some _ _ _ _ hl]
          exact h
        · right
          exact h
    | remove rid df =>
      by_cases hk : tid = rid
      · right
        exact ⟨df, by rw [hk]⟩
      · left
        have hne := remove_lookups_ne st rid df tid hk
        rcases hp with h | h
        · left; rw [hne.1]; exact h
        · right; rw [hne.2.1]; exact h
    | download did sel now =>
      left
      have hf := download_fields st did sel now
      rcases hp with h | h
      · left; rw [hf.1]; exact h
      · right; rw [hf.2.1]; exact h
    | engineWrite p =>
      left
      exact hp
    | engineUpdate uid status files =>
      left
      rcases engineUpdate_state_cases st uid status files with heq | ⟨hnd, hl, heq⟩ <;> rw [heq]
      · exact hp
      · rcases hp with h | h
        · left
          dsimp only
          rw [alookup_ainsert_isSome_of_some _ _ _ _ hl]
          exact h
        · right
          exact h
  · intro op tid h0 h1
    cases op with
    | add aid h sp now =>
      exfalso
      rcases add_state_cases st aid h sp now with heq | ⟨ha1, ha2, ha3, heq⟩ <;>
        rw [heq] at h1
      · rw [h0] at h1; exact Bool.false_ne_true h1
      · dsimp only at h1
        rw [h0] at h1
        exact Bool.false_ne_true h1
    | tick now =>
      have hgain := foldl_tick_completed_gain now tid st.torrents st h1
      rcases hgain with h2 | ⟨hh, hmem⟩
      · rw [h0] at h2
        exact absurd h2 Bool.false_ne_true
      · exact ⟨alookup_isSome_of_mem _ _ _ hmem, now, rfl⟩
    | pause pid =>
      exfalso
      rcases pause_state_cases st pid with heq | ⟨hnd, hl, heq⟩ <;> rw [heq] at h1 <;>
        rw [h0] at h1 <;> exact Bool.false_ne_true h1
    | resume pid =>
      exfalso
      rcases resume_state_cases st pid with heq | ⟨hnd, hl, heq⟩ <;> rw [heq] at h1 <;>
        rw [h0] at h1 <;> exact Bool.false_ne_true h1
    | remove rid df =>
      exfalso
      rcases (remove_lookups st rid df tid).2.1 with h2 | h2 <;> rw [h2] at h1
      · rw [h0] at h1; exact Bool.false_ne_true h1
      · exact Bool.false_ne_true h1
    | download did sel now =>
      exfalso
      rw [(download_fields st did sel now).2.1, h0] at h1
      exact Bool.false_ne_true h1
    | engineWrite p =>
      exfalso
      dsimp only [stepOp] at h1
      rw [h0] at h1
      exact Bool.false_ne_true h1
    | engineUpdate uid status files =>
      exfalso
      rcases engineUpdate_state_cases st uid status files with heq | ⟨hnd, hl, heq⟩ <;>
        rw [heq] at h1 <;> rw [h0] at h1 <;> exact Bool.false_ne_true h1
  · intro op tid hc
    have hfalse := disj_torrents_false st hd tid hc
    cases op with
    | add aid h sp now =>
      rcases add_state_cases st aid h sp now with heq | ⟨h1, h2, h3, heq⟩ <;> rw [heq]
      · exact hfalse
      · dsimp only
        have hk : tid ≠ aid := by
          intro he
          rw [he, h2] at hc
          simp at hc
        rw [alookup_ainsert_ne _ _ _ _ hk]
        exact hfalse
    | tick now =>
      cases hx : (alookup (stepOp (Op.tick now) st).torrents tid).isSome
      · rfl
      · have := foldl_tick_torrents_mono now tid st.torrents st hx
        rw [hfalse] at this
        exact absurd this Bool.false_ne_true
    | pause pid =>
      rcases pause_state_cases st pid with heq | ⟨hnd, hl, heq⟩ <;> rw [heq]
      · exact hfalse
      · dsimp only
        rw [alookup_ainsert_isSome_of_some _ _ _ _ hl]
        exact hfalse
    | resume pid =>
      rcases resume_state_cases st pid with heq | ⟨hnd, hl, heq⟩ <;> rw [heq]
      · exact hfalse
      · dsimp only
        rw [alookup_ainsert_isSome_of_some _ _ _ _ hl]
        exact hfalse
    | remove rid df =>
      rcases (remove_lookups st rid df tid).1 with h1 | h1 <;> rw [h1]
      · exact hfalse
      · rfl
    | download did sel now =>
      rw [(download_fields st did sel now).1]
      exact hfalse
    | engineWrite p =>
      exact hfalse
    | engineUpdate uid status files =>
      rcases engineUpdate_state_cases st uid status files with heq | ⟨hnd, hl, heq⟩ <;> rw [heq]
      · exact hfalse
      · dsimp only
        rw [alookup_ainsert_isSome_of_some _ _ _ _ hl]
        exact hfalse

/-! ### Concrete demonstration states -/

/-- An engine handle whose transfer has just reached full progress, with a
single file. -/
def hDone : Handle :=
  { status :=
      { name := "demo-single", progress := 1, download_rate := 0, upload_rate := 0,
        num_peers := 2, num_seeds := 1, total_wanted := 7, total_wanted_done := 7,
        all_time_upload := 3, all_time_download := 7, state := "seeding" }
    files := [("a.txt", 7)]
    paused := false
    auto_managed := true }

/-- An engine handle mid-transfer with two files. -/
def hTwo : Handle :=
  { status :=
      { name := "demo-pair", progress := 0, download_rate := 5, upload_rate := 0,
        num_peers := 4, num_seeds := 2, total_wanted := 9, total_wanted_done := 4,
        all_time_upload := 0, all_time_download := 4, state := "downloading" }
    files := [("a.txt", 3), ("b.txt", 6)]
    paused := false
    auto_managed := true }

def demoSt : MState := runOps [Op.add "t1" hDone none 10]

/-- Witness for C1 at a concrete one-job state. -/
theorem claim1_registry_exclusive_witness :
    (¬((alookup demoSt.torrents "t1").isSome = true ∧
       (alookup demoSt.completed_torrents "t1").isSome = true)) ∧
    (presentIn (stepOp (Op.tick 20) demoSt) "t1" ∨
      ∃ df, Op.tick 20 = Op.remove "t1" df) :=
  ⟨(claim1_registry_exclusive demoSt ⟨[Op.add "t1" hDone none 10], rfl⟩).1 "t1",
   (claim1_registry_exclusive demoSt ⟨[Op.add "t1" hDone none 10], rfl⟩).2.1
     (Op.tick 20) "t1" (Or.inl (by rfl))⟩

/-- C3: in every reachable state, an active job whose engine status reports
full progress is moved by the next monitor tick into the completed registry
with progress pinned at 100, both rates 0, peer and seed counts 0, and the
id is removed from the active map. -/
theorem claim3_completion_tick (st : MState) (hr : Reachable st) (tid : String)
    (h : Handle) (now : ℚ) (hl : alookup st.torrents tid = some h)
    (hp : 1 ≤ h.status.progress) :
    ∃ info, alookup (stepOp (Op.tick now) st).completed_torrents tid = some info ∧
      info.progress = 100 ∧ info.download_rate = 0 ∧ info.upload_rate = 0 ∧
      info.num_peers = 0 ∧ info.num_seeds = 0 ∧
      alookup (stepOp (Op.tick now) st).torrents tid = none := by
  have hg : metaGuard st tid = false := guard_inv st hr tid (by rw [hl]; rfl)
  obtain ⟨l₁, l₂, hsplit, hne₁⟩ := alookup_split st.torrents tid h hl
  have hstep : stepOp (Op.tick now) st = (l₁ ++ (tid, h) :: l₂).foldl (tick_step now) st := by
    show monitor_tick st now = _
    unfold monitor_tick
    rw [hsplit]
  rw [hstep, List.foldl_append, List.foldl_cons]
  have hpre := foldl_tick_lookup_ne now tid l₁ st hne₁
  have hgacc :
      (metaOf (l₁.foldl (tick_step now) st) tid now).stopped_on_complete = false := by
    rw [← metaGuard_eq_metaOf]
    rw [metaGuard_congr st (l₁.foldl (tick_step now) st) tid hpre.2.2]
    exact hg
  have hstep2 : tick_step now (l₁.foldl (tick_step now) st) (tid, h) =
      stop_if_completed (l₁.foldl (tick_step now) st) tid h h.status now := by
    unfold tick_step
    rw [if_pos hp]
  rw [hstep2]
  have hrun := stop_run (l₁.foldl (tick_step now) st) tid h h.status now hgacc
  have hstable := foldl_tick_stable now tid
    (completedInfo tid h.status (metaOf (l₁.foldl (tick_step now) st) tid now)) l₂
    (stop_if_completed (l₁.foldl (tick_step now) st) tid h h.status now)
    hrun.1 hrun.2.1 hrun.2.2
  exact ⟨completedInfo tid h.status (metaOf (l₁.foldl (tick_step now) st) tid now),
    hstable.1, rfl, rfl, rfl, rfl, rfl, hstable.2.1⟩

/-- Witness for C3 at a concrete one-job state whose transfer just
finished. -/
theorem claim3_completion_tick_witness :
    ∃ info, alookup (stepOp (Op.tick 20) demoSt).completed_torrents "t1" = some info ∧
      info.progress = 100 ∧ info.download_rate = 0 ∧ info.upload_rate = 0 ∧
      info.num_peers = 0 ∧ info.num_seeds = 0 ∧
      alookup (stepOp (Op.tick 20) demoSt).torrents "t1" = none :=
  claim3_completion_tick demoSt ⟨[Op.add "t1" hDone none 10], rfl⟩ "t1" hDone 20
    (by rfl) (by decide)

/-- C4: the completion transition is idempotent.  Once
`stopped_on_complete` is set for a job, running `stop_if_completed` again is
a no-op (state unchanged, completed snapshot included), and
`build_zip_if_needed` returns a non-empty cached archive unchanged whenever
its modification time is at least the freshness timestamp. -/
theorem claim4_completion_idempotent :
    (∀ (st : MState) (tid : String) (h : Handle) (s : TorrentStatus) (now : ℚ)
        (m : Metadata), alookup st.torrent_metadata tid = some m →
        m.stopped_on_complete = true → stop_if_completed st tid h s now = st) ∧
    (∀ (st : MState) (tid : String) (files : List FileEntry) (nm : String)
        (ts bt : ℚ) (z : ZipFile), alookup st.zips tid = some z → 0 < z.size →
        ts ≤ z.mtime →
        build_zip_if_needed st tid files nm ts bt =
          ((zipPathOf tid, sanitize_name nm), st)) := by
  constructor
  · intro st tid h s now m hm hg
    apply stop_noop
    unfold metaOf
    rw [hm]
    exact hg
  · intro st tid files nm ts bt z hz hs hm
    unfold build_zip_if_needed
    rw [hz]
    dsimp only
    rw [if_pos ⟨hs, hm⟩]

/-- Metadata of a job that has been through the completion step. -/
def doneMeta : Metadata :=
  { added_time := 10, save_path := DOWNLOAD_DIR_S, stopped_on_complete := true,
    completed_at := some 20 }

/-- A cached archive built at the completion instant. -/
def doneZip : ZipFile := { size := 42, mtime := 20, entries := ["a.txt", "b.txt"] }

def doneSt : MState :=
  { torrents := []
    torrent_metadata := [("t1", doneMeta)]
    completed_torrents := [("t1", completedInfo "t1" hDone.status doneMeta)]
    completed_files := [("t1",
      { files := snapshotFiles DOWNLOAD_DIR_S hDone.files, save_path := DOWNLOAD_DIR_S,
        name := "demo-single" })]
    zips := [("t1", doneZip)]
    disk := [] }

/-- Witness for C4 at a concrete already-completed job. -/
theorem claim4_completion_idempotent_witness :
    stop_if_completed doneSt "t1" hDone hDone.status 30 = doneSt ∧
    build_zip_if_needed doneSt "t1" (snapshotFiles DOWNLOAD_DIR_S hDone.files)
        "demo-single" 20 30 = ((zipPathOf "t1", sanitize_name "demo-single"), doneSt) :=
  ⟨claim4_completion_idempotent.1 doneSt "t1" hDone hDone.status 30 doneMeta rfl rfl,
   claim4_completion_idempotent.2 doneSt "t1" (snapshotFiles DOWNLOAD_DIR_S hDone.files)
     "demo-single" 20 30 doneZip rfl (by decide) (by decide)⟩

/-! ### C2: path validation versus the existence check -/

theorem parsePath_no_empty_part (s : String) : "" ∉ (parsePath s).parts := by
  unfold parsePath
  intro hmem
  have hf := (List.mem_filter.mp hmem).2
  simp at hf

theorem bad_path_of_spec (s : String)
    (h : (parsePath s).absolute = true ∨ ".." ∈ (parsePath s).parts) :
    bad_path s = true := by
  unfold bad_path
  rcases h with h | h
  · rw [h]
    rfl
  · rw [Bool.or_eq_true]
    right
    rw [List.any_eq_true]
    exact ⟨"..", h, by decide⟩

/-- C2 (amended): when at least one of the job's files exists on disk, a
download selector that is absolute or contains a `..` segment fails with the
400 invalid-path error before any per-file matching; but when no file exists
on disk yet, the request fails with the 404 no-files error regardless of the
selector, because the handler's existence check precedes its path
validation. -/
theorem claim2_path_rejection_amended (st : MState) (tid : String) (sel : String)
    (now : ℚ) (files : List FileEntry) (nm : String)
    (hg : get_torrent_files st tid = .ok (files, nm)) :
    (files.filter (fun f => st.disk.contains f.absolute_path) ≠ [] →
      ((parsePath sel).absolute = true ∨ ".." ∈ (parsePath sel).parts) →
      (download_torrent_files st tid (some sel) now).1 = .error invalidPathErr) ∧
    (files.filter (fun f => st.disk.contains f.absolute_path) = [] →
      (download_torrent_files st tid (some sel) now).1 = .error noFilesErr) := by
  constructor
  · intro hne hbad
    unfold download_torrent_files
    rw [hg]
    dsimp only
    rw [if_neg hne, if_pos (bad_path_of_spec sel hbad)]
  · intro he
    unfold download_torrent_files
    rw [hg]
    dsimp only
    rw [if_pos he]

def c2St : MState := runOps [Op.add "t1" hTwo none 5]

def c2wSt : MState :=
  runOps [Op.add "t1" hTwo none 5,
    Op.engineWrite "/srv/torrent-downloader/downloads/a.txt"]

/-- C2 counterexample: for a job none of whose files exists on disk yet, the
traversal selector `"../secret"` is answered with the 404 no-files error,
not the 400 invalid-path error — the rejection does **not** precede the
existence check. -/
theorem claim2_path_rejection_counterexample :
    bad_path "../secret" = true ∧
    (download_torrent_files c2St "t1" (some "../secret") 50).1 = .error noFilesErr ∧
    (Except.error noFilesErr : Except HttpErr DownloadResult) ≠ .error invalidPathErr := by
  refine ⟨by decide, by rfl, ?_⟩
  intro h
  injection h with h
  exact absurd h (by decide)

/-- Witness for the amended C2: with one file on disk the traversal selector
gets the 400 invalid-path error; with no file on disk it gets the 404
no-files error. -/
theorem claim2_path_rejection_amended_witness :
    (download_torrent_files c2wSt "t1" (some "../secret") 50).1 =
      .error invalidPathErr ∧
    (download_torrent_files c2St "t1" (some "../secret") 50).1 = .error noFilesErr :=
  ⟨(claim2_path_rejection_amended c2wSt "t1" "../secret" 50
      (snapshotFiles (savePathOf c2wSt "t1") hTwo.files) hTwo.status.name (by rfl)).1
      (by decide) (Or.inr (by decide)),
   (claim2_path_rejection_amended c2St "t1" "../secret" 50
      (snapshotFiles (savePathOf c2St "t1") hTwo.files) hTwo.status.name (by rfl)).2
      (by decide)⟩

/-! ### C5: the archive freshness marker used by the download handler -/

/-- C5 (amended): a selector-less download of a job with more than one
existing file serves the archive produced by `build_zip_if_needed` with
freshness marker `download_snapshot_time`; that marker is the job's
`completed_at` timestamp when metadata has one, and the **current request
time** (`time.time()`) — not the submission time — when the job is not yet
marked completed in metadata. -/
theorem claim5_archive_freshness_amended (st : MState) (tid : String) (now : ℚ)
    (files : List FileEntry) (nm : String)
    (hg : get_torrent_files st tid = .ok (files, nm))
    (hlen : 1 < (files.filter (fun f => st.disk.contains f.absolute_path)).length) :
    download_torrent_files st tid none now =
      (.ok (.serveZip (zipPathOf tid) (sanitize_name nm ++ ".zip")),
       (build_zip_if_needed st tid
         (files.filter (fun f => st.disk.contains f.absolute_path)) nm
         (download_snapshot_time st tid now) now).2) ∧
    (∀ m c, alookup st.torrent_metadata tid = some m → m.completed_at = some c →
      download_snapshot_time st tid now = c) ∧
    (∀ m, alookup st.torrent_metadata tid = some m → m.completed_at = none →
      download_snapshot_time st tid now = now) := by
  refine ⟨?_, ?_, ?_⟩
  · unfold download_torrent_files
    rw [hg]
    dsimp only
    have hne : files.filter (fun f => st.disk.contains f.absolute_path) ≠ [] := by
      intro hz
      rw [hz] at hlen
      simp at hlen
    rw [if_neg hne]
    have hone : ((files.filter (fun f => st.disk.contains f.absolute_path)).length
        == 1) = false := by
      rw [beq_eq_false_iff_ne, ne_eq]
      omega
    rw [if_neg (by rw [hone]; exact Bool.false_ne_true)]
    rw [build_zip_fst]
  · intro m c hm hc
    unfold download_snapshot_time
    rw [hm]
    dsimp only [Option.map_some', Option.getD_some]
    rw [hc]
    rfl
  · intro m hm hc
    unfold download_snapshot_time
    rw [hm]
    dsimp only [Option.map_some', Option.getD_some]
    rw [hc]
    rfl

def pA : String := "/srv/torrent-downloader/downloads/a.txt"

def pB : String := "/srv/torrent-downloader/downloads/b.txt"

def c5Pre : MState :=
  runOps [Op.add "t1" hTwo none 5, Op.engineWrite pA, Op.engineWrite pB]

def c5St : MState := stepOp (Op.download "t1" none 50) c5Pre

def c5St2 : MState := stepOp (Op.download "t1" none 100) c5St

/-- C5 counterexample: the job was submitted at time 5 and is not marked
completed; a first selector-less download at time 50 builds the archive
(mtime 50); a second one at time 100 uses freshness marker 100 — the current
time, not the submission time 5 — and therefore rebuilds the still-intact
archive (new mtime 100).  Under the claimed submission-time fallback the
marker would be 5 and the mtime-50 archive would have been reused. -/
theorem claim5_archive_freshness_counterexample :
    (alookup c5St.torrent_metadata "t1").map (·.added_time) = some 5 ∧
    (alookup c5St.torrent_metadata "t1").map (·.completed_at) = some none ∧
    download_snapshot_time c5St "t1" 100 = 100 ∧
    (100 : ℚ) ≠ 5 ∧
    (alookup c5St.zips "t1").map (·.mtime) = some 50 ∧
    (alookup c5St2.zips "t1").map (·.mtime) = some 100 := by
  exact ⟨by rfl, by rfl, by rfl, by decide, by rfl, by rfl⟩

/-- Witness for the amended C5 at a two-file job with both files on disk and
no completion record. -/
theorem claim5_archive_freshness_amended_witness :
    download_torrent_files c5Pre "t1" none 50 =
      (.ok (.serveZip (zipPathOf "t1") (sanitize_name "demo-pair" ++ ".zip")),
       (build_zip_if_needed c5Pre "t1"
         ((snapshotFiles (savePathOf c5Pre "t1") hTwo.files).filter
           (fun f => c5Pre.disk.contains f.absolute_path)) "demo-pair"
         (download_snapshot_time c5Pre "t1" 50) 50).2) ∧
    download_snapshot_time c5Pre "t1" 50 = 50 := by
  have hc := claim5_archive_freshness_amended c5Pre "t1" 50
    (snapshotFiles (savePathOf c5Pre "t1") hTwo.files) hTwo.status.name
    (by rfl) (by decide)
  exact ⟨hc.1, hc.2.2
    { added_time := 5, save_path := DOWNLOAD_DIR_S, stopped_on_complete := false,
      completed_at := none } (by rfl) (by rfl)⟩

/-! ### C6: what a cached archive implies -/

/-- C6 counterexample: the reachable state `c5St` (an active two-file job
whose files exist on disk, after one selector-less download) has a cached
archive for `"t1"` while `"t1"` is still in the active registry and absent
from the completed registry: the download handler builds archives for
in-progress jobs too. -/
theorem claim6_archive_implies_completed_counterexample :
    Reachable c5St ∧
    (alookup c5St.zips "t1").isSome = true ∧
    alookup c5St.completed_torrents "t1" = none ∧
    (alookup c5St.torrents "t1").isSome = true := by
  exact ⟨⟨[Op.add "t1" hTwo none 5, Op.engineWrite pA, Op.engineWrite pB,
    Op.download "t1" none 50], rfl⟩, by rfl, by rfl, by rfl⟩

/-- C6 (amended): in every reachable state, a cached archive entry always
holds more than one member — but the corresponding job need not be in the
completed registry, since the download handler also builds archives on
demand for active multi-file jobs. -/
theorem claim6_archive_multi_file_amended (st : MState) (hr : Reachable st) :
    ∀ tid z, alookup st.zips tid = some z → 1 < z.entries.length :=
  zip_inv st hr

/-- Witness for the amended C6 at the archive cached in `c5St`. -/
theorem claim6_archive_multi_file_amended_witness :
    1 < ((alookup c5St.zips "t1").getD doneZip).entries.length :=
  claim6_archive_multi_file_amended c5St
    ⟨[Op.add "t1" hTwo none 5, Op.engineWrite pA, Op.engineWrite pB,
      Op.download "t1" none 50], rfl⟩
    "t1" ((alookup c5St.zips "t1").getD doneZip) (by rfl)

/-! ### C8: the ratio computation -/

/-- C8: the ratio reported for every job is
`all_time_upload / max(all_time_download, 1)`: the divisor is never zero,
the value is non-negative (and, being a rational, finite), and a job with
zero downloaded bytes reports `uploaded / 1`.  This covers the live
computation of `get_torrent_info` and, by invariant, every stored completed
snapshot. -/
theorem claim8_ratio_safe :
    (∀ up down : ℕ, max (down : ℚ) 1 ≠ 0 ∧
      ratioOf up down = (up : ℚ) / max (down : ℚ) 1 ∧
      0 ≤ ratioOf up down ∧
      (down = 0 → ratioOf up down = (up : ℚ) / 1)) ∧
    (∀ (st : MState) (tid : String) (h : Handle),
      (active_info st tid h).ratio =
        ratioOf h.status.all_time_upload h.status.all_time_download) ∧
    (∀ st, Reachable st → ∀ tid info, alookup st.completed_torrents tid = some info →
      ∃ d, info.ratio = ratioOf info.uploaded d ∧ 0 ≤ info.ratio) := by
  have hmax : ∀ down : ℕ, (0 : ℚ) < max (down : ℚ) 1 :=
    fun down => lt_of_lt_of_le one_pos (le_max_right _ _)
  refine ⟨?_, ?_, ?_⟩
  · intro up down
    refine ⟨ne_of_gt (hmax down), rfl, ?_, ?_⟩
    · exact div_nonneg (by positivity) (le_of_lt (hmax down))
    · intro hd
      subst hd
      unfold ratioOf
      norm_num
  · intro st tid h
    rfl
  · intro st hr tid info hl
    obtain ⟨d, hd⟩ := ratio_inv st hr tid info hl
    refine ⟨d, hd, ?_⟩
    rw [hd]
    exact div_nonneg (by positivity) (le_of_lt (hmax d))

def tickedSt : MState := stepOp (Op.tick 20) demoSt

def tickedInfo : TorrentInfo :=
  (alookup tickedSt.completed_torrents "t1").getD (completedInfo "t1" hDone.status doneMeta)

/-- Witness for C8: the zero-download case and the stored snapshot of a
concrete completed job. -/
theorem claim8_ratio_safe_witness :
    ratioOf 3 0 = (3 : ℚ) / 1 ∧
    (∃ d, tickedInfo.ratio = ratioOf tickedInfo.uploaded d ∧ 0 ≤ tickedInfo.ratio) :=
  ⟨(claim8_ratio_safe.1 3 0).2.2.2 rfl,
   claim8_ratio_safe.2.2 tickedSt ⟨[Op.add "t1" hDone none 10, Op.tick 20], rfl⟩
     "t1" tickedInfo (by rfl)⟩

/-! ### C10: pause and resume on completed jobs -/

theorem alookup_mem {α : Type} (l : List (String × α)) (k : String) (v : α)
    (h : alookup l k = some v) : ∃ p ∈ l, p.2 = v := by
  unfold alookup at h
  rw [Option.map_eq_some'] at h
  obtain ⟨p, hp, hv⟩ := h
  exact ⟨p, List.mem_of_find?_eq_some hp, hv⟩

/-- C10: a job id that sits in the completed registry but not in the active
map is answered 404 by pause and resume, even though the very same id is
served by get-job and appears in the merged job list; and pause/resume fail
with 404 for every id outside the active map, so they succeed only for
active ids. -/
theorem claim10_pause_resume_completed (st : MState) (tid : String)
    (info : TorrentInfo) (ht : alookup st.torrents tid = none)
    (hc : alookup st.completed_torrents tid = some info) :
    pause_torrent st tid = .error { code := 404, detail := "Torrent not found" } ∧
    resume_torrent st tid = .error { code := 404, detail := "Torrent not found" } ∧
    get_torrent_info st tid = .ok info ∧
    info ∈ list_torrents st ∧
    (∀ tid', alookup st.torrents tid' = none →
      pause_torrent st tid' = .error { code := 404, detail := "Torrent not found" } ∧
      resume_torrent st tid' = .error { code := 404, detail := "Torrent not found" }) := by
  refine ⟨?_, ?_, ?_, ?_, ?_⟩
  · unfold pause_torrent
    rw [ht]
  · unfold resume_torrent
    rw [ht]
  · unfold get_torrent_info
    rw [ht, hc]
  · unfold list_torrents
    rw [List.mem_mergeSort]
    apply List.mem_append_right
    obtain ⟨p, hp, hv⟩ := alookup_mem _ _ _ hc
    exact List.mem_map.mpr ⟨p, hp, hv⟩
  · intro tid' ht'
    constructor
    · unfold pause_torrent
      rw [ht']
    · unfold resume_torrent
      rw [ht']

/-- Witness for C10 at a concrete state whose only job has completed. -/
theorem claim10_pause_resume_completed_witness :
    pause_torrent tickedSt "t1" = .error { code := 404, detail := "Torrent not found" } ∧
    resume_torrent tickedSt "t1" = .error { code := 404, detail := "Torrent not found" } ∧
    get_torrent_info tickedSt "t1" = .ok tickedInfo ∧
    tickedInfo ∈ list_torrents tickedSt := by
  have h := claim10_pause_resume_completed tickedSt "t1" tickedInfo (by rfl) (by rfl)
  exact ⟨h.1, h.2.1, h.2.2.1, h.2.2.2.1⟩
